import Mathlib

/-!
# anyproxy: registry construction and serving entry points

A shallow embedding of `src/proxy.go` (package `anyproxy`).

* Go maps are association lists with pairwise distinct keys (`GoMap`).
* The collaborators that live outside `proxy.go` (`url.Parse`, `NewServeConn`,
  the `cmux` dispatcher, the OS listener) are fields of `Deps`.
* A dispatcher (`CMux`) is represented by the history of registration calls
  made on it; whether a registration call reports an error is decided by
  `Deps` from that history.
* Slices handed to `NewServeConn` are recorded with the value they have at
  the moment of the call.
-/

namespace Anyproxy

/-! ## Data model -/

/-- Go `error` values that `proxy.go` returns: errors handed up from a
collaborator, and the one error `proxy.go` builds itself. -/
inductive Error where
  | ext (msg : String)
  | notMatchAddress (address : String)
  deriving DecidableEq, Repr

/-- Credential of a descriptor (`*url.Userinfo`). -/
structure Userinfo where
  username : String
  password : Option String
  deriving DecidableEq, Repr

/-- The fields of `*url.URL` that `NewAnyProxy` reads. `User = none` is the
nil pointer. -/
structure URL where
  Scheme : String
  Host : String
  User : Option Userinfo
  RawQuery : String
  deriving DecidableEq, Repr

/-- A network connection, identified by its leading bytes. -/
structure Conn where
  peek : String
  deriving DecidableEq, Repr

/-- A `net.Listener`: `Accept n` is the result of the `n`-th call of
`Accept()` (counting from zero). -/
structure Listener where
  Accept : Nat → Except Error Conn

/-- The `ListenConfig` interface: `Listen network address`. -/
structure ListenConfig where
  Listen : String → String → Except Error Listener

/-- The fields of `Config` that `proxy.go` touches. `ListenConfig = none` is
the nil interface. -/
structure Config where
  RawQueries : List String
  Users : List Userinfo
  ListenConfig : Option ListenConfig

/-- A connection handler as returned by `NewServeConn`. `ProxyURLs` is
`some` when the handler implements the `proxyURLs` interface, `ProxyURL` is
`some` when it implements `proxyURL`. -/
structure ServeConn where
  name : String
  ProxyURLs : Option (List String)
  ProxyURL : Option String
  deriving DecidableEq, Repr

/-- One registration call made on a dispatcher. -/
inductive Registration where
  | notFound (s : ServeConn)
  | handlePrefix (s : ServeConn) (patterns : List String)
  deriving DecidableEq, Repr

/-- A `*cmux.CMux`, represented by the registration calls made on it so far,
oldest first. -/
structure CMux where
  calls : List Registration
  deriving DecidableEq, Repr

/-- The collaborators of `proxy.go`.
`Parse` is `url.Parse`; `NewServeConn scheme host hostconf` is the handler
factory, returning the handler and the pattern slice (`none` is the nil
slice); `NotFound m s` and `HandlePrefix m s patterns` give the error result
of the corresponding `cmux` call on a dispatcher with history `m`;
`netListenConfig` is `&net.ListenConfig{}`. -/
structure Deps where
  Parse : String → Except Error URL
  NewServeConn : String → String → Config → Except Error (ServeConn × Option (List String))
  NotFound : CMux → ServeConn → Option Error
  HandlePrefix : CMux → ServeConn → List String → Option Error
  netListenConfig : ListenConfig

/-! ## Go maps -/

/-- Value stored under key `k`, if any. -/
def assocGet {V : Type} (k : String) : List (String × V) → Option V
  | [] => none
  | (k', v) :: rest => if k' = k then some v else assocGet k rest

/-- Store `v` under key `k`, replacing the entry of `k` when there is one. -/
def assocSet {V : Type} (k : String) (v : V) : List (String × V) → List (String × V)
  | [] => [(k, v)]
  | (k', v') :: rest => if k' = k then (k, v) :: rest else (k', v') :: assocSet k v rest

theorem assocSet_keys {V : Type} (k : String) (v : V) (l : List (String × V)) :
    (assocSet k v l).map Prod.fst =
      if k ∈ l.map Prod.fst then l.map Prod.fst else l.map Prod.fst ++ [k] := by
  induction l with
  | nil => simp [assocSet]
  | cons e rest ih =>
    obtain ⟨k', v'⟩ := e
    by_cases hk : k' = k
    · subst hk; simp [assocSet]
    · have hk' : ¬ k = k' := fun h => hk h.symm
      simp only [assocSet, hk, if_false, List.map_cons, ih, List.mem_cons, hk', false_or]
      split <;> simp

theorem assocSet_nodup {V : Type} (k : String) (v : V) (l : List (String × V))
    (h : (l.map Prod.fst).Nodup) : ((assocSet k v l).map Prod.fst).Nodup := by
  rw [assocSet_keys]
  split
  · exact h
  · next hk =>
    rw [List.nodup_append]
    refine ⟨h, List.nodup_singleton k, ?_⟩
    intro a ha hb
    simp only [List.mem_singleton] at hb
    subst hb
    exact hk ha

/-- A Go `map[string]V`: entries with pairwise distinct keys. -/
structure GoMap (V : Type) where
  entries : List (String × V)
  nodup : (entries.map Prod.fst).Nodup

namespace GoMap

/-- The map literal `map[string]V{}`. -/
def empty {V : Type} : GoMap V := ⟨[], List.nodup_nil⟩

/-- The two-result index expression `v, ok := m[k]`; `none` is `ok = false`. -/
def get? {V : Type} (m : GoMap V) (k : String) : Option V := assocGet k m.entries

/-- The assignment `m[k] = v`. -/
def set {V : Type} (m : GoMap V) (k : String) (v : V) : GoMap V :=
  ⟨assocSet k v m.entries, assocSet_nodup k v m.entries m.nodup⟩

/-- The keys of the map, in the order in which `range` visits them. -/
def keys {V : Type} (m : GoMap V) : List String := m.entries.map Prod.fst

end GoMap

/-! ## Registry construction (`NewAnyProxy`) -/

/-- One listening address: its dispatcher, the upstream URLs of the handlers
registered on it, and the configuration shared by all Hosts. -/
structure Host where
  cmux : CMux
  proxies : List String
  conf : Config

/-- The registry. -/
structure AnyProxy where
  proxies : GoMap Host
  conf : Config

/-- One call `NewServeConn(ctx, u.Scheme, u.Host, &hostconf)`: the parsed
descriptor and the configuration handed over. -/
structure Call where
  u : URL
  hostconf : Config

/-- The local variables of `NewAnyProxy` while it loops, together with a
record of the calls made so far: `parsed` lists the arguments of `url.Parse`
and `calls` the calls of `NewServeConn`, oldest first. A nil slice stored in
`users` is `none`. -/
structure Build where
  proxies : GoMap Host
  users : GoMap (Option (List Userinfo))
  parsed : List String
  calls : List Call

/-- The key `fmt.Sprintf("%s://%s", u.Scheme, u.Host)`. -/
def unique (u : URL) : String := u.Scheme ++ "://" ++ u.Host

/-- The one-result index expression `users[key]` read as a list: a missing
key and a nil slice both have no elements. -/
def usersAt (users : GoMap (Option (List Userinfo))) (key : String) : List Userinfo :=
  match users.get? key with
  | some (some l) => l
  | _ => []

/-- Lines 51-57: the update of `users` for one descriptor. -/
def recordUser (users : GoMap (Option (List Userinfo))) (u : URL) :
    GoMap (Option (List Userinfo)) :=
  match u.User with
  | none => users.set (unique u) none
  | some cred =>
    match users.get? (unique u) with
    | some none => users
    | _ => users.set (unique u) (some (usersAt users (unique u) ++ [cred]))

/-- Lines 58-60: the per-descriptor configuration. -/
def hostconfOf (conf : Config) (users : GoMap (Option (List Userinfo))) (u : URL) : Config :=
  { conf with
    RawQueries := conf.RawQueries ++ [u.RawQuery]
    Users := usersAt users (unique u) ++ conf.Users }

/-- Lines 74-78: the upstream URLs a handler contributes. -/
def upstreamURLs (s : ServeConn) : List String :=
  match s.ProxyURLs with
  | some ps => ps
  | none =>
    match s.ProxyURL with
    | some p => [p]
    | none => []

/-- Lines 66-72: the Host already stored under `host`, or a fresh one. -/
def resolveHost (conf : Config) (proxies : GoMap Host) (host : String) : Host :=
  match proxies.get? host with
  | some mux => mux
  | none => { cmux := ⟨[]⟩, proxies := [], conf := conf }

/-- The body of the loop of `NewAnyProxy` (lines 45-87) for one descriptor.
The second component is the error that makes `NewAnyProxy` return, if any. -/
def iteration (d : Deps) (conf : Config) (st : Build) (addr : String) : Build × Option Error :=
  let st1 : Build := { st with parsed := st.parsed ++ [addr] }
  match d.Parse addr with
  | .error err => (st1, some err)
  | .ok u =>
    let users := recordUser st.users u
    let hostconf := hostconfOf conf users u
    let st2 : Build := { st1 with users := users, calls := st.calls ++ [⟨u, hostconf⟩] }
    match d.NewServeConn u.Scheme u.Host hostconf with
    | .error err => (st2, some err)
    | .ok (s, patterns) =>
      let mux0 := resolveHost conf st.proxies u.Host
      let mux : Host := { mux0 with proxies := mux0.proxies ++ upstreamURLs s }
      match patterns with
      | none =>
        match d.NotFound mux.cmux s with
        | some err => (st2, some err)
        | none =>
          ({ st2 with proxies :=
              st.proxies.set u.Host { mux with cmux := ⟨mux.cmux.calls ++ [.notFound s]⟩ } }, none)
      | some ps =>
        -- line 85: the error of `HandlePrefix` is assigned and never read
        let _err := d.HandlePrefix mux.cmux s ps
        ({ st2 with proxies :=
            st.proxies.set u.Host { mux with cmux := ⟨mux.cmux.calls ++ [.handlePrefix s ps]⟩ } },
          none)

/-- The loop of `NewAnyProxy` over the descriptors. -/
def loop (d : Deps) (conf : Config) : List String → Build → Build × Option Error
  | [], st => (st, none)
  | addr :: rest, st =>
    match iteration d conf st addr with
    | (st', some err) => (st', some err)
    | (st', none) => loop d conf rest st'

/-- Lines 32-40: the private copy of the configuration, with the default
listener-opening capability filled in. `conf = none` is the nil pointer. -/
def normalize (d : Deps) (conf : Option Config) : Config :=
  let c : Config :=
    match conf with
    | none => { RawQueries := [], Users := [], ListenConfig := none }
    | some c => c
  match c.ListenConfig with
  | none => { c with ListenConfig := some d.netListenConfig }
  | some _ => c

/-- The state in which the loop of `NewAnyProxy` starts. -/
def Build.init : Build :=
  { proxies := GoMap.empty, users := GoMap.empty, parsed := [], calls := [] }

/-- The run of `NewAnyProxy`: final loop state and the error, if any. -/
def NewAnyProxyRun (d : Deps) (addrs : List String) (conf : Option Config) :
    Build × Option Error :=
  loop d (normalize d conf) addrs Build.init

/-- The function `NewAnyProxy`: its two results `(*AnyProxy, error)`. -/
def NewAnyProxy (d : Deps) (addrs : List String) (conf : Option Config) :
    Option AnyProxy × Option Error :=
  match NewAnyProxyRun d addrs conf with
  | (_, some err) => (none, some err)
  | (st, none) => (some { conf := normalize d conf, proxies := st.proxies }, none)

/-! ## Lookup and iteration -/

/-- The method `AnyProxy.Match`; `none` is the nil `*Host`. -/
def AnyProxy.Match (a : AnyProxy) (addr : String) : Option Host := a.proxies.get? addr

/-- Go's `<=` on strings: lexicographic by code point, which for UTF-8 text
is the byte order that Go compares by. -/
def stringLE (a b : String) : Prop := a.toList ≤ b.toList

instance stringLE.decidable : DecidableRel stringLE :=
  fun a b => inferInstanceAs (Decidable (a.toList ≤ b.toList))

/-- The function `sort.Strings`. -/
def sortStrings (l : List String) : List String := l.insertionSort stringLE

/-- The method `AnyProxy.Hosts`. -/
def AnyProxy.Hosts (a : AnyProxy) : List String := sortStrings a.proxies.keys

/-- The method `Host.ProxyURLs`. -/
def Host.ProxyURLs (h : Host) : List String := h.proxies

/-! ## Serving -/

/-- How a serving call ends: it is still accepting when the observation
stops, it returned an error, or it dereferenced a nil `ListenConfig`. -/
inductive Outcome where
  | running
  | returned (err : Error)
  | panicked
  deriving DecidableEq, Repr

/-- What a serving call did: the `Listen` calls it made as
`(network, address)`, the connections it handed to `ServeConn`, and how it
ended. -/
structure Served where
  listens : List (String × String)
  conns : List Conn
  outcome : Outcome
  deriving DecidableEq, Repr

/-- The accept loop of `Host.Serve`, observed for `fuel` calls of `Accept`
starting with call number `i`; `acc` are the connections dispatched so far. -/
def acceptLoop (listener : Listener) : Nat → Nat → List Conn → List Conn × Outcome
  | 0, _, acc => (acc, .running)
  | fuel + 1, i, acc =>
    match listener.Accept i with
    | .error err => (acc, .returned err)
    | .ok conn => acceptLoop listener fuel (i + 1) (acc ++ [conn])

/-- The method `Host.Serve`, observed for `fuel` calls of `Accept`. -/
def Host.Serve (_h : Host) (listener : Listener) (fuel : Nat) : Served :=
  let r := acceptLoop listener fuel 0 []
  { listens := [], conns := r.1, outcome := r.2 }

/-- The method `Host.ListenAndServe`. -/
def Host.ListenAndServe (h : Host) (network address : String) (fuel : Nat) : Served :=
  match h.conf.ListenConfig with
  | none => { listens := [], conns := [], outcome := .panicked }
  | some lc =>
    match lc.Listen network address with
    | .error err => { listens := [(network, address)], conns := [], outcome := .returned err }
    | .ok listener =>
      let r := h.Serve listener fuel
      { r with listens := (network, address) :: r.listens }

/-- The method `AnyProxy.ListenAndServe`. -/
def AnyProxy.ListenAndServe (a : AnyProxy) (network address : String) (fuel : Nat) : Served :=
  match a.Match address with
  | none => { listens := [], conns := [], outcome := .returned (.notMatchAddress address) }
  | some host => host.ListenAndServe network address fuel

/-- How `AnyProxy.Run` leaves its loop over the addresses: it returned an
error, it dereferenced a nil `ListenConfig`, or it opened every listener and
blocks in `group.Wait()`. What `group.Wait()` returns is decided by the
order in which the accept loops fail. -/
inductive RunEnd where
  | returned (err : Error)
  | panicked
  | waiting
  deriving DecidableEq, Repr

/-- What `AnyProxy.Run` did: the `Listen` calls it made as
`(network, address)` in order, the accept loops it started with `group.Go`
in order (each with the connections it handed to `ServeConn` and how it
ended within the observation), and how the loop over the addresses ended. -/
structure Ran where
  listens : List (String × String)
  loops : List (List Conn × Outcome)
  stop : RunEnd
  deriving DecidableEq, Repr

/-- The loop of `AnyProxy.Run` (lines 119-138) over the remaining addresses;
`listens` and `loops` are the calls made and the accept loops started so
far. Each accept loop is observed for `fuel` calls of `Accept`. -/
def AnyProxy.runFrom (a : AnyProxy) (fuel : Nat) :
    List String → List (String × String) → List (List Conn × Outcome) → Ran
  | [], listens, loops => { listens := listens, loops := loops, stop := .waiting }
  | address :: rest, listens, loops =>
    match a.Match address with
    | none => { listens := listens, loops := loops, stop := .returned (.notMatchAddress address) }
    | some _host =>
      match a.conf.ListenConfig with
      | none => { listens := listens, loops := loops, stop := .panicked }
      | some lc =>
        match lc.Listen "tcp" address with
        | .error err =>
          { listens := listens ++ [("tcp", address)], loops := loops, stop := .returned err }
        | .ok listener =>
          runFrom a fuel rest (listens ++ [("tcp", address)])
            (loops ++ [acceptLoop listener fuel 0 []])

/-- The method `AnyProxy.Run`, up to `group.Wait()`. -/
def AnyProxy.Run (a : AnyProxy) (fuel : Nat) : Ran := a.runFrom fuel a.Hosts [] []

/-- The method `cmux.ServeConn` of the dispatcher: the registered handler
that a dispatcher with the given history hands the connection to, if any. -/
abbrev Dispatch : Type := CMux → Conn → Option ServeConn

/-- The method `Host.ServeConn`: the connection goes to the dispatcher of
the Host. -/
def Host.ServeConn (dispatch : Dispatch) (h : Host) (conn : Conn) : Option ServeConn :=
  dispatch h.cmux conn

/-! ## Descriptions of a run, used to state its properties -/

/-- The result `NewServeConn` gives for a recorded call. -/
def Call.result (d : Deps) (c : Call) : Except Error (ServeConn × Option (List String)) :=
  d.NewServeConn c.u.Scheme c.u.Host c.hostconf

/-- The registration call that lines 79-86 make for a handler and its
pattern slice. -/
def registrationOf (s : ServeConn) : Option (List String) → Registration
  | none => .notFound s
  | some ps => .handlePrefix s ps

/-- The registration that a recorded call leads to, when its factory call
succeeded. -/
def Call.registration (d : Deps) (c : Call) : Option Registration :=
  match c.result d with
  | .ok (s, patterns) => some (registrationOf s patterns)
  | .error _ => none

/-- The upstream URLs that the handler of a recorded call contributes. -/
def Call.upstream (d : Deps) (c : Call) : List String :=
  match c.result d with
  | .ok (s, _) => upstreamURLs s
  | .error _ => []

/-- The recorded calls whose descriptor has host `host`, oldest first. -/
def callsAt (host : String) (calls : List Call) : List Call :=
  calls.filter (fun c => decide (c.u.Host = host))

/-- The descriptors with credential key `key`, in descriptor order. -/
def group (key : String) (us : List URL) : List URL :=
  us.filter (fun u => decide (unique u = key))

/-- The content of `users[key]` once the descriptors `g` of one key have
been processed: missing, the nil slice, or their credentials. -/
def groupState (g : List URL) : Option (Option (List Userinfo)) :=
  match g with
  | [] => none
  | _ :: _ => if g.all (fun u => u.User.isSome) then some (some (g.filterMap URL.User)) else some none

/-- The credentials read from `users[key]` once the descriptors `g` of one
key have been processed. -/
def credsOf (g : List URL) : List Userinfo :=
  if g.all (fun u => u.User.isSome) then g.filterMap URL.User else []

/-- The Host stored for an address whose recorded calls are `cs`. -/
def hostOf (d : Deps) (conf : Config) (cs : List Call) : Option Host :=
  match cs with
  | [] => none
  | _ :: _ =>
    some { cmux := ⟨cs.filterMap (Call.registration d)⟩
           proxies := cs.flatMap (Call.upstream d)
           conf := conf }

/-- A registration is a fallback registration. -/
def Registration.isNotFound : Registration → Bool
  | .notFound _ => true
  | .handlePrefix _ _ => false

/-- The scheme of every parsed descriptor is free of `:`, as `url.Parse`
guarantees. -/
def SchemeOK (d : Deps) : Prop :=
  ∀ a u, d.Parse a = .ok u → ':' ∉ u.Scheme.toList

/-- The dispatcher refuses a fallback registration exactly when one was
made before. -/
def NotFoundOnce (d : Deps) : Prop :=
  ∀ m s, (d.NotFound m s).isSome = m.calls.any Registration.isNotFound

/-- The state after the call of `NewServeConn` for descriptor `u`. -/
def afterCall (conf : Config) (st : Build) (addr : String) (u : URL) : Build :=
  { proxies := st.proxies
    users := recordUser st.users u
    parsed := st.parsed ++ [addr]
    calls := st.calls ++ [⟨u, hostconfOf conf (recordUser st.users u) u⟩] }

/-- The Host after lines 74-86 registered handler `s` with `patterns`. -/
def registered (mux : Host) (s : ServeConn) (patterns : Option (List String)) : Host :=
  { cmux := ⟨mux.cmux.calls ++ [registrationOf s patterns]⟩
    proxies := mux.proxies ++ upstreamURLs s
    conf := mux.conf }

/-- The ways in which one iteration ends. -/
inductive IterationCase (d : Deps) (conf : Config) (st : Build) (addr : String) :
    Build × Option Error → Prop where
  | parseError (err : Error) (hp : d.Parse addr = .error err) :
      IterationCase d conf st addr ({ st with parsed := st.parsed ++ [addr] }, some err)
  | factoryError (u : URL) (err : Error) (hp : d.Parse addr = .ok u)
      (hf : d.NewServeConn u.Scheme u.Host (hostconfOf conf (recordUser st.users u) u)
        = .error err) :
      IterationCase d conf st addr (afterCall conf st addr u, some err)
  | conflict (u : URL) (s : ServeConn) (err : Error) (hp : d.Parse addr = .ok u)
      (hf : d.NewServeConn u.Scheme u.Host (hostconfOf conf (recordUser st.users u) u)
        = .ok (s, none))
      (hn : d.NotFound (resolveHost conf st.proxies u.Host).cmux s = some err) :
      IterationCase d conf st addr (afterCall conf st addr u, some err)
  | done (u : URL) (s : ServeConn) (patterns : Option (List String))
      (hp : d.Parse addr = .ok u)
      (hf : d.NewServeConn u.Scheme u.Host (hostconfOf conf (recordUser st.users u) u)
        = .ok (s, patterns))
      (hn : patterns = none → d.NotFound (resolveHost conf st.proxies u.Host).cmux s = none) :
      IterationCase d conf st addr
        ({ afterCall conf st addr u with
            proxies := st.proxies.set u.Host
              (registered (resolveHost conf st.proxies u.Host) s patterns) }, none)

/-- The configuration handed to the factory for descriptor `u` when the
descriptors `earlier` were processed before it. -/
def hostconfFor (conf : Config) (earlier : List URL) (u : URL) : Config :=
  { conf with
    RawQueries := conf.RawQueries ++ [u.RawQuery]
    Users := credsOf (group (unique u) (earlier ++ [u])) ++ conf.Users }

/-- What holds of the loop state once the descriptors `addrs` have all been
processed without error. -/
structure Inv (d : Deps) (conf : Config) (addrs : List String) (st : Build) : Prop where
  parsed : st.parsed = addrs
  aligned : List.Forall₂ (fun a c => d.Parse a = .ok c.u) addrs st.calls
  users : ∀ key, st.users.get? key = groupState (group key (st.calls.map Call.u))
  hostconf : ∀ pre c post, st.calls = pre ++ c :: post →
    c.hostconf = hostconfFor conf (pre.map Call.u) c.u
  built : ∀ c ∈ st.calls, ∃ s ps, c.result d = .ok (s, ps)
  proxies : ∀ a, st.proxies.get? a = hostOf d conf (callsAt a st.calls)
  accepted : ∀ pre c post s, st.calls = pre ++ c :: post → c.result d = .ok (s, none) →
    d.NotFound ⟨(callsAt c.u.Host pre).filterMap (Call.registration d)⟩ s = none

/-! ## A concrete set of collaborators -/

/-- Descriptors and their parses, as `url.Parse` gives them. -/
def demoURLs : List (String × URL) :=
  [ ("alpha://:9000", ⟨"alpha", ":9000", none, ""⟩),
    ("beta://:9000", ⟨"beta", ":9000", none, ""⟩),
    ("gamma://:9001", ⟨"gamma", ":9001", none, ""⟩),
    ("delta://:9000", ⟨"delta", ":9000", none, ""⟩),
    ("bare://:9002", ⟨"bare", ":9002", none, ""⟩),
    ("broken://:9000", ⟨"broken", ":9000", none, ""⟩),
    ("http://u1:p1@h:80?x=1", ⟨"http", "h:80", some ⟨"u1", some "p1"⟩, "x=1"⟩),
    ("http://u2@h:80?y=2", ⟨"http", "h:80", some ⟨"u2", none⟩, "y=2"⟩),
    ("http://h:80", ⟨"http", "h:80", none, ""⟩),
    ("socks5://u3:p3@h:80", ⟨"socks5", "h:80", some ⟨"u3", some "p3"⟩, ""⟩),
    ("socks5://h:80", ⟨"socks5", "h:80", none, ""⟩),
    ("ftp://h:80", ⟨"ftp", "h:80", none, ""⟩) ]

/-- A parser that knows the descriptors of `table` and rejects all others. -/
def tableParse (table : List (String × URL)) (addr : String) : Except Error URL :=
  match assocGet addr table with
  | some u => .ok u
  | none => .error (.ext "parse error")

/-- A handler factory that decides by scheme: `alpha`, `http` and `socks5`
come with prefix patterns, `bare` with an empty non-nil pattern slice,
`broken` fails, every other scheme has the nil pattern slice. -/
def demoNewServeConn (scheme host : String) (_hostconf : Config) :
    Except Error (ServeConn × Option (List String)) :=
  if scheme = "alpha" then .ok (⟨"alpha", some ["up://1", "up://2"], some "up://0"⟩, some ["A"])
  else if scheme = "http" then .ok (⟨"http@" ++ host, none, some "up://3"⟩, some ["GET ", "POST "])
  else if scheme = "socks5" then .ok (⟨"socks5@" ++ host, none, none⟩, some ["S5"])
  else if scheme = "bare" then .ok (⟨"bare", none, none⟩, some [])
  else if scheme = "broken" then .error (.ext "unsupported scheme")
  else .ok (⟨scheme, none, some "up://1"⟩, none)

/-- A dispatcher that refuses a second fallback and accepts every pattern
registration. -/
def demo : Deps where
  Parse := tableParse demoURLs
  NewServeConn := demoNewServeConn
  NotFound := fun m _ =>
    if m.calls.any Registration.isNotFound then some (.ext "not found handler already exists")
    else none
  HandlePrefix := fun _ _ _ => none
  netListenConfig := ⟨fun _ _ => .error (.ext "address already in use")⟩

/-- A base configuration with one default credential and one raw query. -/
def demoConf : Config :=
  { RawQueries := ["base=1"], Users := [⟨"root", none⟩], ListenConfig := none }

/-- The host strings of the descriptors that parse, in descriptor order. -/
def parsedHosts (d : Deps) (addrs : List String) : List String :=
  addrs.filterMap (fun a =>
    match d.Parse a with
    | .ok u => some u.Host
    | .error _ => none)

/-- Recorded calls and descriptors correspond one to one, in order. -/
def Aligned (d : Deps) (addrs : List String) (calls : List Call) : Prop :=
  List.Forall₂ (fun addr c => d.Parse addr = .ok c.u) addrs calls

/-- The registrations `regs` are those of the calls `cs`, one for one and
in order. -/
def RegisteredAs (d : Deps) (cs : List Call) (regs : List Registration) : Prop :=
  List.Forall₂ (fun c r => ∃ s patterns, c.result d = .ok (s, patterns) ∧
    r = registrationOf s patterns) cs regs

/-- Three descriptors on two addresses. -/
def demoAddrs : List String := ["alpha://:9000", "beta://:9000", "gamma://:9001"]

/-- The registry built from `demoAddrs`. -/
def demoRegistry : AnyProxy :=
  { proxies := (NewAnyProxyRun demo demoAddrs none).1.proxies, conf := normalize demo none }

/-- Two fallback handlers for `:9000` with a pattern handler between them,
and a further descriptor behind. -/
def demoConflict : List String :=
  ["beta://:9000", "alpha://:9000", "delta://:9000", "gamma://:9001"]

/-- The call that `NewAnyProxy demo _ none` makes for a descriptor without
credential and query. -/
def demoCall (scheme host : String) : Call :=
  { u := ⟨scheme, host, none, ""⟩
    hostconf := { RawQueries := [""], Users := [], ListenConfig := some demo.netListenConfig } }

/-- The descriptors `x` and `c` have the same scheme and the same host. -/
def sameGroup (c : Call) (x : Call) : Bool :=
  decide (x.u.Scheme = c.u.Scheme ∧ x.u.Host = c.u.Host)

/-- Four descriptors with credentials: three for `http://h:80`, the first
and the last with the same credential, and one for `socks5://h:80`. -/
def demoCredentials : List String :=
  ["http://u1:p1@h:80?x=1", "socks5://u3:p3@h:80", "http://u2@h:80?y=2", "http://u1:p1@h:80?x=1"]

/-- The call that `NewAnyProxy demo _ (some demoConf)` makes for a
descriptor of host `h:80`, given the accumulated credentials. -/
def demoCallWith (scheme : String) (user : Option Userinfo) (query : String)
    (creds : List Userinfo) : Call :=
  { u := ⟨scheme, "h:80", user, query⟩
    hostconf :=
      { RawQueries := ["base=1", query]
        Users := creds ++ [⟨"root", none⟩]
        ListenConfig := some demo.netListenConfig } }

/-- The credential `u1:p1`. -/
def demoU1 : Userinfo := ⟨"u1", some "p1"⟩

/-- The credential `u2`. -/
def demoU2 : Userinfo := ⟨"u2", none⟩

/-- The credential `u3:p3`. -/
def demoU3 : Userinfo := ⟨"u3", some "p3"⟩

/-- A descriptor without credential followed by one with a credential for
the same scheme and host. -/
def demoBareFirst : List String := ["http://h:80", "http://u1:p1@h:80?x=1"]

/-- The handler that `demo` builds for scheme `alpha`. -/
def demoAlpha : ServeConn := ⟨"alpha", some ["up://1", "up://2"], some "up://0"⟩

/-- The handler that `demo` builds for a scheme without patterns. -/
def demoPlain (scheme : String) : ServeConn := ⟨scheme, none, some "up://1"⟩

/-- The Host that `demoRegistry` holds for `:9000`. -/
def demoHost9000 : Host :=
  { cmux := ⟨[.handlePrefix demoAlpha ["A"], .notFound (demoPlain "beta")]⟩
    proxies := ["up://1", "up://2", "up://1"]
    conf := normalize demo none }

/-- The descriptors of `demoAddrs` in another order. -/
def demoAddrsPermuted : List String := ["gamma://:9001", "beta://:9000", "alpha://:9000"]

/-- The registry built from `demoAddrsPermuted` with base configuration
`demoConf`. -/
def demoRegistryPermuted : AnyProxy :=
  { proxies := (NewAnyProxyRun demo demoAddrsPermuted (some demoConf)).1.proxies
    conf := normalize demo (some demoConf) }

/-- The iteration for descriptor `addr` in state `st` fails with `err`: the
descriptor does not parse, or its handler factory fails, or its fallback
registration is refused. -/
def Fails (d : Deps) (conf : Config) (st : Build) (addr : String) (err : Error) : Prop :=
  d.Parse addr = .error err ∨
  ∃ u, d.Parse addr = .ok u ∧
    (d.NewServeConn u.Scheme u.Host (hostconfOf conf (recordUser st.users u) u) = .error err ∨
      ∃ s, d.NewServeConn u.Scheme u.Host (hostconfOf conf (recordUser st.users u) u)
          = .ok (s, none) ∧
        d.NotFound (resolveHost conf st.proxies u.Host).cmux s = some err)

/-- A listener that yields two connections and is closed then. -/
def demoListener : Listener :=
  ⟨fun n => if n = 0 then .ok ⟨"A1"⟩ else if n = 1 then .ok ⟨"B2"⟩ else .error (.ext "closed")⟩

/-- A base configuration whose listener-opening capability always yields
`demoListener`. -/
def demoServingConf : Config :=
  { RawQueries := [], Users := [], ListenConfig := some ⟨fun _ _ => .ok demoListener⟩ }

/-- The registry built from `demoAddrs` with base configuration
`demoServingConf`. -/
def demoServing : AnyProxy :=
  { proxies := (NewAnyProxyRun demo demoAddrs (some demoServingConf)).1.proxies
    conf := normalize demo (some demoServingConf) }

/-- The descriptors of `demoCredentials` with descriptors of other groups
inserted, removed and changed: the `socks5` descriptor is gone, and
descriptors of other schemes on the same host, one of them without
credential, stand before and between the `http` descriptors. -/
def demoCredentialsMixed : List String :=
  ["ftp://h:80", "http://u1:p1@h:80?x=1", "socks5://h:80", "socks5://u3:p3@h:80",
    "http://u2@h:80?y=2"]

/-- A descriptor without credential between descriptors with credentials,
all for `http://h:80`. -/
def demoBareBetween : List String :=
  ["http://u1:p1@h:80?x=1", "http://h:80", "http://u2@h:80?y=2"]

/-- The collaborators `demo` with a dispatcher that reports an error for
every pattern registration. -/
def demoRefusing : Deps :=
  { demo with HandlePrefix := fun _ _ _ => some (.ext "pattern conflict") }

/-- The accept loop that `Run` starts for an address, when the listener
opens. -/
def loopFor (lc : ListenConfig) (fuel : Nat) (address : String) :
    Option (List Conn × Outcome) :=
  match lc.Listen "tcp" address with
  | .ok listener => some (acceptLoop listener fuel 0 [])
  | .error _ => none

/-- A listener-opening capability that fails for `:9001` and yields
`demoListener` for every other address. -/
def demoFlaky : ListenConfig :=
  ⟨fun _ address =>
    if address = ":9001" then .error (.ext "address already in use") else .ok demoListener⟩

/-- Descriptors for three addresses, given in descending order. -/
def demoThree : List String := ["bare://:9002", "gamma://:9001", "alpha://:9000"]

/-- The registry built from `demoThree` over `demoFlaky`. -/
def demoThreeFlaky : AnyProxy :=
  { proxies :=
      (NewAnyProxyRun demo demoThree (some { demoServingConf with ListenConfig := some demoFlaky })).1.proxies
    conf := normalize demo (some { demoServingConf with ListenConfig := some demoFlaky }) }

/-- The leading bytes of the connection start with `pattern`. -/
def hasPrefix (pattern : String) (conn : Conn) : Bool :=
  pattern.toList.isPrefixOf conn.peek.toList

/-- The contract of the dispatcher: when a registered pattern matches the
connection, the connection goes to a handler registered under a matching
pattern, whether or not a fallback is registered; when no registered pattern
matches and a fallback is registered, it goes to a registered fallback. -/
def PrefixFirst (dispatch : Dispatch) : Prop :=
  ∀ m conn,
    ((∃ s ps p, Registration.handlePrefix s ps ∈ m.calls ∧ p ∈ ps ∧ hasPrefix p conn = true) →
      ∃ s ps p, dispatch m conn = some s ∧ Registration.handlePrefix s ps ∈ m.calls ∧
        p ∈ ps ∧ hasPrefix p conn = true) ∧
    ((∀ s ps p, Registration.handlePrefix s ps ∈ m.calls → p ∈ ps → hasPrefix p conn = false) →
      (∃ s, Registration.notFound s ∈ m.calls) →
      ∃ s, dispatch m conn = some s ∧ Registration.notFound s ∈ m.calls)

/-- The first handler registered under a pattern that matches. -/
def firstMatch (conn : Conn) : List Registration → Option ServeConn
  | [] => none
  | .handlePrefix s ps :: rest =>
    if ps.any (fun p => hasPrefix p conn) then some s else firstMatch conn rest
  | .notFound _ :: rest => firstMatch conn rest

/-- The first handler registered as fallback. -/
def fallbackOf : List Registration → Option ServeConn
  | [] => none
  | .notFound s :: _ => some s
  | .handlePrefix _ _ :: rest => fallbackOf rest

/-- A dispatcher that hands a connection to the first handler registered
under a matching pattern and, when there is none, to the fallback. -/
def demoDispatch : Dispatch := fun m conn =>
  match firstMatch conn m.calls with
  | some s => some s
  | none => fallbackOf m.calls

/-! ## Basic facts about Go maps -/

theorem assocGet_assocSet {V : Type} (a k : String) (v : V) (l : List (String × V)) :
    assocGet a (assocSet k v l) = if k = a then some v else assocGet a l := by
  induction l with
  | nil => simp [assocSet, assocGet]
  | cons e rest ih =>
    obtain ⟨k', v'⟩ := e
    by_cases hk : k' = k
    · subst hk
      by_cases ha : k' = a <;> simp [assocSet, assocGet, ha]
    · by_cases ha : k' = a
      · subst ha
        have : ¬ k = k' := fun h => hk h.symm
        simp [assocSet, assocGet, hk, this]
      · simp [assocSet, assocGet, hk, ha, ih]

theorem assocGet_isSome {V : Type} (a : String) (l : List (String × V)) :
    (assocGet a l).isSome ↔ a ∈ l.map Prod.fst := by
  induction l with
  | nil => simp [assocGet]
  | cons e rest ih =>
    obtain ⟨k', v'⟩ := e
    by_cases ha : k' = a
    · subst ha; simp [assocGet]
    · have : ¬ a = k' := fun h => ha h.symm
      simp [assocGet, ha, this, ih]


/-! ## The loop, one descriptor at a time -/

theorem loop_append (d : Deps) (conf : Config) (pre rest : List String) (st : Build) :
    loop d conf (pre ++ rest) st =
      match loop d conf pre st with
      | (st', some err) => (st', some err)
      | (st', none) => loop d conf rest st' := by
  induction pre generalizing st with
  | nil => simp [loop]
  | cons a pre ih =>
    simp only [List.cons_append, loop]
    rcases h : iteration d conf st a with ⟨st', _ | err⟩
    · exact ih st'
    · rfl

theorem loop_snoc (d : Deps) (conf : Config) (pre : List String) (a : String) (st : Build) :
    loop d conf (pre ++ [a]) st =
      match loop d conf pre st with
      | (st', some err) => (st', some err)
      | (st', none) => iteration d conf st' a := by
  rw [loop_append]
  rcases loop d conf pre st with ⟨st', _ | err⟩
  · simp only [loop]
    rcases iteration d conf st' a with ⟨st'', _ | err⟩ <;> rfl
  · rfl

theorem iteration_case (d : Deps) (conf : Config) (st : Build) (addr : String) :
    IterationCase d conf st addr (iteration d conf st addr) := by
  unfold iteration
  rcases hp : d.Parse addr with err | u
  · exact .parseError err hp
  · simp only
    rcases hf : d.NewServeConn u.Scheme u.Host (hostconfOf conf (recordUser st.users u) u)
      with err | ⟨s, patterns⟩
    · exact .factoryError u err hp hf
    · cases patterns with
      | none =>
        simp only
        rcases hn : d.NotFound (resolveHost conf st.proxies u.Host).cmux s with _ | err
        · exact .done u s none hp hf (fun _ => hn)
        · exact .conflict u s err hp hf hn
      | some ps =>
        exact .done u s (some ps) hp hf (fun h => by cases h)

/-! ## Credentials per key -/

theorem GoMap.get?_set {V : Type} (m : GoMap V) (k a : String) (v : V) :
    (m.set k v).get? a = if k = a then some v else m.get? a :=
  assocGet_assocSet a k v m.entries

theorem group_append (key : String) (us vs : List URL) :
    group key (us ++ vs) = group key us ++ group key vs := by
  simp [group]

theorem group_single (key : String) (u : URL) :
    group key [u] = if unique u = key then [u] else [] := by
  by_cases h : unique u = key <;> simp [group, h]

theorem groupState_snoc_none (g : List URL) (u : URL) (h : u.User = none) :
    groupState (g ++ [u]) = some none := by
  cases g <;> simp [groupState, h]

theorem groupState_snoc_some (g : List URL) (u : URL) (cred : Userinfo)
    (h : u.User = some cred) :
    groupState (g ++ [u]) =
      match groupState g with
      | some none => some none
      | some (some l) => some (some (l ++ [cred]))
      | none => some (some [cred]) := by
  cases g with
  | nil => simp [groupState, h]
  | cons x g =>
    by_cases hall : (x :: g).all (fun u => u.User.isSome) = true
    · have hall' : ((x :: g) ++ [u]).all (fun u => u.User.isSome) = true := by
        simp only [List.all_append, hall, Bool.true_and]
        simp [h]
      simp only [groupState, hall, if_true]
      simp only [List.cons_append] at hall' ⊢
      simp only [groupState, hall', if_true]
      rw [← List.cons_append, List.filterMap_append]
      simp [h]
    · have hall' : ¬ ((x :: g) ++ [u]).all (fun u => u.User.isSome) = true := by
        simp only [List.all_append]
        intro hc
        simp only [Bool.and_eq_true] at hc
        exact hall hc.1
      simp only [groupState, hall]
      simp only [List.cons_append] at hall' ⊢
      simp only [groupState, hall']
      simp

theorem usersAt_of_state (users : GoMap (Option (List Userinfo))) (key : String) (g : List URL)
    (h : users.get? key = groupState g) : usersAt users key = credsOf g := by
  unfold usersAt
  rw [h]
  cases g with
  | nil => simp [groupState, credsOf]
  | cons x g =>
    by_cases hall : (x :: g).all (fun u => u.User.isSome) = true
    · simp only [groupState, credsOf, hall, if_true]
    · simp only [groupState, credsOf, hall]
      simp

theorem recordUser_state (users : GoMap (Option (List Userinfo))) (us : List URL) (u : URL)
    (h : ∀ key, users.get? key = groupState (group key us)) (key : String) :
    (recordUser users u).get? key = groupState (group key (us ++ [u])) := by
  rw [group_append, group_single]
  by_cases hk : unique u = key
  · subst hk
    simp only [if_true]
    unfold recordUser
    cases hu : u.User with
    | none =>
      simp only [GoMap.get?_set, if_true]
      exact (groupState_snoc_none _ u hu).symm
    | some cred =>
      rw [groupState_snoc_some _ u cred hu]
      have hs := h (unique u)
      have ha := usersAt_of_state users (unique u) _ hs
      simp only
      rcases hg : groupState (group (unique u) us) with _ | _ | l
      · rw [hg] at hs
        simp only [hs, GoMap.get?_set, if_true]
        rw [ha]
        cases hgg : group (unique u) us with
        | nil => simp [credsOf]
        | cons x g => rw [hgg] at hg; simp only [groupState] at hg; split at hg <;> cases hg
      · rw [hg] at hs
        simp only [hs]
      · rw [hg] at hs
        simp only [hs, GoMap.get?_set, if_true]
        rw [ha]
        cases hgg : group (unique u) us with
        | nil => rw [hgg] at hg; simp [groupState] at hg
        | cons x g =>
          rw [hgg] at hg
          simp only [groupState] at hg
          split at hg
          · next hall =>
            simp only [Option.some.injEq] at hg
            simp only [credsOf, hall, if_true, hg]
          · cases hg
  · simp only [hk, if_false, List.append_nil]
    rw [← h key]
    unfold recordUser
    cases hu : u.User with
    | none => simp only [GoMap.get?_set, hk, if_false]
    | some cred =>
      simp only
      split
      · rfl
      · simp only [GoMap.get?_set, hk, if_false]

theorem hostconfOf_recordUser (conf : Config) (users : GoMap (Option (List Userinfo)))
    (us : List URL) (u : URL)
    (h : ∀ key, users.get? key = groupState (group key us)) :
    hostconfOf conf (recordUser users u) u = hostconfFor conf us u := by
  unfold hostconfOf hostconfFor
  rw [usersAt_of_state _ _ _ (recordUser_state users us u h (unique u))]

/-! ## The invariant of the loop -/

theorem callsAt_append (a : String) (cs ds : List Call) :
    callsAt a (cs ++ ds) = callsAt a cs ++ callsAt a ds := by
  simp [callsAt]

theorem callsAt_single (a : String) (c : Call) :
    callsAt a [c] = if c.u.Host = a then [c] else [] := by
  by_cases h : c.u.Host = a <;> simp [callsAt, h]

theorem hostOf_snoc (d : Deps) (conf : Config) (cs : List Call) (c : Call) (s : ServeConn)
    (patterns : Option (List String)) (hc : c.result d = .ok (s, patterns)) :
    hostOf d conf (cs ++ [c]) =
      some (registered
        (match hostOf d conf cs with
          | some mux => mux
          | none => { cmux := ⟨[]⟩, proxies := [], conf := conf }) s patterns) := by
  have hr : Call.registration d c = some (registrationOf s patterns) := by
    simp [Call.registration, hc]
  have hu : Call.upstream d c = upstreamURLs s := by
    simp [Call.upstream, hc]
  cases cs with
  | nil => simp [hostOf, registered, hr, hu]
  | cons x cs =>
    simp only [List.cons_append, hostOf, registered]
    rw [← List.cons_append, List.filterMap_append, List.flatMap_append]
    simp [hr, hu]

theorem snoc_split {α : Type} (l : List α) (x : α) (pre : List α) (c : α) (post : List α)
    (h : l ++ [x] = pre ++ c :: post) :
    (post = [] ∧ pre = l ∧ c = x) ∨ (∃ post', post = post' ++ [x] ∧ l = pre ++ c :: post') := by
  rcases List.eq_nil_or_concat post with hnil | ⟨post', z, hpost⟩
  · subst hnil
    obtain ⟨h1, h2⟩ := List.append_inj' h rfl
    simp only [List.cons.injEq, and_true] at h2
    exact .inl ⟨rfl, h1.symm, h2.symm⟩
  · rw [List.concat_eq_append] at hpost
    subst hpost
    have h' : l ++ [x] = (pre ++ c :: post') ++ [z] := by rw [h]; simp
    obtain ⟨h1, h2⟩ := List.append_inj' h' rfl
    simp only [List.cons.injEq, and_true] at h2
    subst h2
    exact .inr ⟨post', rfl, h1⟩

theorem resolveHost_cmux (d : Deps) (conf : Config) (proxies : GoMap Host) (calls : List Call)
    (a : String) (h : proxies.get? a = hostOf d conf (callsAt a calls)) :
    (resolveHost conf proxies a).cmux = ⟨(callsAt a calls).filterMap (Call.registration d)⟩ := by
  unfold resolveHost
  rw [h]
  cases callsAt a calls <;> simp [hostOf]

theorem hostconf_snoc (conf : Config) (calls : List Call) (c0 : Call)
    (hold : ∀ pre c post, calls = pre ++ c :: post →
      c.hostconf = hostconfFor conf (pre.map Call.u) c.u)
    (hnew : c0.hostconf = hostconfFor conf (calls.map Call.u) c0.u)
    (pre : List Call) (c : Call) (post : List Call) (h : calls ++ [c0] = pre ++ c :: post) :
    c.hostconf = hostconfFor conf (pre.map Call.u) c.u := by
  rcases snoc_split calls c0 pre c post h with ⟨_, h1, h2⟩ | ⟨post', _, h1⟩
  · subst h1; subst h2; exact hnew
  · exact hold pre c post' h1

theorem Inv.init (d : Deps) (conf : Config) : Inv d conf [] Build.init where
  parsed := rfl
  aligned := List.Forall₂.nil
  users := fun key => rfl
  hostconf := fun pre c post h => by simp [Build.init] at h
  built := fun c hc => by simp [Build.init] at hc
  proxies := fun a => rfl
  accepted := fun pre c post s h => by simp [Build.init] at h

theorem Inv.step (d : Deps) (conf : Config) (addrs : List String) (st st' : Build)
    (a : String) (hI : Inv d conf addrs st) (h : iteration d conf st a = (st', none)) :
    Inv d conf (addrs ++ [a]) st' := by
  have hc := iteration_case d conf st a
  generalize hr : iteration d conf st a = r at hc h
  cases hc with
  | parseError err hp => simp at h
  | factoryError u err hp hf => simp at h
  | conflict u s err hp hf hn => simp at h
  | done u s patterns hp hf hn =>
    simp only [Prod.mk.injEq, and_true] at h
    subst h
    have hconf := hostconfOf_recordUser conf st.users (st.calls.map Call.u) u hI.users
    refine ⟨?_, ?_, ?_, ?_, ?_, ?_, ?_⟩
    · simp [afterCall, hI.parsed]
    · exact List.rel_append hI.aligned (List.Forall₂.cons hp List.Forall₂.nil)
    · intro key
      simp only [afterCall, List.map_append, List.map_cons, List.map_nil]
      exact recordUser_state st.users _ u hI.users key
    · intro pre c post hsplit
      exact hostconf_snoc conf st.calls _ hI.hostconf hconf pre c post hsplit
    · intro c hc
      simp only [afterCall, List.mem_append, List.mem_singleton] at hc
      rcases hc with hc | hc
      · exact hI.built c hc
      · subst hc
        exact ⟨s, patterns, hf⟩
    · intro x
      simp only [afterCall, GoMap.get?_set, callsAt_append, callsAt_single]
      by_cases hx : u.Host = x
      · subst hx
        simp only [if_true]
        rw [hostOf_snoc d conf _ ⟨u, hostconfOf conf (recordUser st.users u) u⟩ s patterns hf]
        simp only [resolveHost, hI.proxies u.Host]
      · simp only [hx, if_false, List.append_nil]
        exact hI.proxies x
    · intro pre c post s' hsplit hres
      rcases snoc_split st.calls _ pre c post hsplit with ⟨_, h1, h2⟩ | ⟨post', _, h1⟩
      · subst h1
        subst h2
        have hres' : d.NewServeConn u.Scheme u.Host (hostconfOf conf (recordUser st.users u) u)
            = .ok (s', none) := hres
        rw [hf] at hres'
        simp only [Except.ok.injEq, Prod.mk.injEq] at hres'
        obtain ⟨hs, hp'⟩ := hres'
        subst hs
        have := hn hp'
        rw [resolveHost_cmux d conf st.proxies st.calls u.Host (hI.proxies u.Host)] at this
        exact this
      · exact hI.accepted pre c post' s' h1 hres

/-- The loop processed all of `addrs` without error and ended in state `st`. -/
theorem loop_inv (d : Deps) (conf : Config) (addrs : List String) (st : Build)
    (h : loop d conf addrs Build.init = (st, none)) : Inv d conf addrs st := by
  induction addrs using List.reverseRecOn generalizing st with
  | nil =>
    simp only [loop, Prod.mk.injEq, and_true] at h
    subst h
    exact Inv.init d conf
  | append_singleton pre a ih =>
    rw [loop_snoc] at h
    rcases hl : loop d conf pre Build.init with ⟨st0, _ | err⟩
    · rw [hl] at h
      exact Inv.step d conf pre st0 st a (ih st0 hl) h
    · rw [hl] at h
      simp at h

/-- A run that returns an error stops at the first descriptor whose
iteration fails. -/
theorem loop_error (d : Deps) (conf : Config) (addrs : List String) (st0 st' : Build)
    (err : Error) (h : loop d conf addrs st0 = (st', some err)) :
    ∃ pre a post st, addrs = pre ++ a :: post ∧ loop d conf pre st0 = (st, none) ∧
      iteration d conf st a = (st', some err) := by
  induction addrs generalizing st0 with
  | nil => simp [loop] at h
  | cons a rest ih =>
    simp only [loop] at h
    rcases hi : iteration d conf st0 a with ⟨st1, _ | e⟩
    · rw [hi] at h
      obtain ⟨pre, b, post, st, h1, h2, h3⟩ := ih st1 h
      refine ⟨a :: pre, b, post, st, by rw [h1]; rfl, ?_, h3⟩
      simp only [loop, hi]
      exact h2
    · rw [hi] at h
      simp only [Prod.mk.injEq, Option.some.injEq] at h
      obtain ⟨h1, h2⟩ := h
      subst h1; subst h2
      exact ⟨[], a, rest, st0, rfl, rfl, hi⟩

theorem loop_error_of (d : Deps) (conf : Config) (pre post : List String) (a : String)
    (st0 st st' : Build) (err : Error) (h1 : loop d conf pre st0 = (st, none))
    (h2 : iteration d conf st a = (st', some err)) :
    loop d conf (pre ++ a :: post) st0 = (st', some err) := by
  rw [loop_append, h1]
  simp only [loop, h2]

/-- The two ways in which a run ends. -/
theorem run_cases (d : Deps) (conf : Config) (addrs : List String) :
    (∃ st, loop d conf addrs Build.init = (st, none) ∧ Inv d conf addrs st) ∨
    (∃ pre a post st st' err, addrs = pre ++ a :: post ∧
      loop d conf pre Build.init = (st, none) ∧ Inv d conf pre st ∧
      iteration d conf st a = (st', some err) ∧
      loop d conf addrs Build.init = (st', some err)) := by
  rcases h : loop d conf addrs Build.init with ⟨st', _ | err⟩
  · exact .inl ⟨st', rfl, loop_inv d conf addrs st' h⟩
  · obtain ⟨pre, a, post, st, h1, h2, h3⟩ := loop_error d conf addrs _ _ _ h
    exact .inr ⟨pre, a, post, st, st', err, h1, h2, loop_inv d conf pre st h2, h3, rfl⟩

/-! ## The built registry -/

theorem NewAnyProxy_ok (d : Deps) (addrs : List String) (conf : Option Config) (p : AnyProxy)
    (h : NewAnyProxy d addrs conf = (some p, none)) :
    ∃ st, NewAnyProxyRun d addrs conf = (st, none) ∧
      p = { proxies := st.proxies, conf := normalize d conf } ∧
      Inv d (normalize d conf) addrs st := by
  unfold NewAnyProxy at h
  rcases hr : NewAnyProxyRun d addrs conf with ⟨st, _ | err⟩
  · rw [hr] at h
    simp only [Prod.mk.injEq, Option.some.injEq, and_true] at h
    exact ⟨st, rfl, h.symm, loop_inv d _ addrs st hr⟩
  · rw [hr] at h
    simp at h

theorem aligned_hosts (d : Deps) (addrs : List String) (calls : List Call)
    (h : List.Forall₂ (fun addr c => d.Parse addr = .ok c.u) addrs calls) :
    calls.map (fun c => c.u.Host) = parsedHosts d addrs := by
  induction h with
  | nil => rfl
  | cons hp _ ih =>
    simp only [parsedHosts, List.map_cons, List.filterMap_cons, hp]
    rw [ih]
    rfl

theorem mem_parsedHosts (d : Deps) (addrs : List String) (a : String) :
    a ∈ parsedHosts d addrs ↔ ∃ addr ∈ addrs, ∃ u, d.Parse addr = .ok u ∧ u.Host = a := by
  simp only [parsedHosts, List.mem_filterMap]
  constructor
  · rintro ⟨addr, hm, hx⟩
    rcases hp : d.Parse addr with e | u
    · rw [hp] at hx; simp at hx
    · rw [hp] at hx
      simp only [Option.some.injEq] at hx
      exact ⟨addr, hm, u, hp, hx⟩
  · rintro ⟨addr, hm, u, hp, hu⟩
    exact ⟨addr, hm, by rw [hp]; simp [hu]⟩

theorem hostOf_isSome (d : Deps) (conf : Config) (calls : List Call) (a : String) :
    (hostOf d conf (callsAt a calls)).isSome ↔ a ∈ calls.map (fun c => c.u.Host) := by
  have hmem : (∃ c, c ∈ callsAt a calls) ↔ a ∈ calls.map (fun c => c.u.Host) := by
    simp only [callsAt, List.mem_filter, decide_eq_true_eq, List.mem_map]
  rw [← hmem]
  cases hc : callsAt a calls with
  | nil => simp [hostOf]
  | cons x cs => simp [hostOf]

theorem registeredAs_filterMap (d : Deps) (cs : List Call)
    (h : ∀ c ∈ cs, ∃ s ps, c.result d = .ok (s, ps)) :
    RegisteredAs d cs (cs.filterMap (Call.registration d)) := by
  induction cs with
  | nil => exact List.Forall₂.nil
  | cons c cs ih =>
    obtain ⟨s, ps, hc⟩ := h c (List.mem_cons_self c cs)
    have hr : Call.registration d c = some (registrationOf s ps) := by
      simp [Call.registration, hc]
    simp only [List.filterMap_cons, hr]
    exact List.Forall₂.cons ⟨s, ps, hc, rfl⟩
      (ih (fun c' hc' => h c' (List.mem_cons_of_mem c hc')))

theorem match_eq_hostOf (d : Deps) (addrs : List String) (conf : Option Config) (p : AnyProxy)
    (h : NewAnyProxy d addrs conf = (some p, none)) (a : String) :
    p.Match a = hostOf d (normalize d conf) (callsAt a (NewAnyProxyRun d addrs conf).1.calls) := by
  obtain ⟨st, hr, hp, hI⟩ := NewAnyProxy_ok d addrs conf p h
  rw [hr, hp]
  exact hI.proxies a

theorem keys_of_run (d : Deps) (addrs : List String) (conf : Option Config) (p : AnyProxy)
    (h : NewAnyProxy d addrs conf = (some p, none)) (a : String) :
    a ∈ p.proxies.keys ↔ a ∈ parsedHosts d addrs := by
  obtain ⟨st, hr, hp, hI⟩ := NewAnyProxy_ok d addrs conf p h
  rw [← aligned_hosts d addrs st.calls hI.aligned, ← hostOf_isSome d (normalize d conf),
    ← hI.proxies a, hp]
  exact (assocGet_isSome a st.proxies.entries).symm

/-- C1. On success the registry has exactly one Host per distinct host
string of the descriptors: `Match a` finds a Host exactly when some
descriptor has host `a`; recorded calls and descriptors correspond one to
one; the registrations on the Host found under `a` are, one for one and in
order, those of all descriptors with host `a`, whatever their scheme; and
there are as many Hosts as distinct host strings. -/
theorem one_host_per_host_string (d : Deps) (addrs : List String) (conf : Option Config)
    (p : AnyProxy) (h : NewAnyProxy d addrs conf = (some p, none)) :
    (∀ a, (p.Match a).isSome ↔ ∃ addr ∈ addrs, ∃ u, d.Parse addr = .ok u ∧ u.Host = a) ∧
    Aligned d addrs (NewAnyProxyRun d addrs conf).1.calls ∧
    (∀ a mux, p.Match a = some mux →
      RegisteredAs d (callsAt a (NewAnyProxyRun d addrs conf).1.calls) mux.cmux.calls) ∧
    p.proxies.keys.length = (parsedHosts d addrs).dedup.length := by
  obtain ⟨st, hr, hp, hI⟩ := NewAnyProxy_ok d addrs conf p h
  refine ⟨?_, ?_, ?_, ?_⟩
  · intro a
    rw [← mem_parsedHosts, ← keys_of_run d addrs conf p h a]
    exact assocGet_isSome a p.proxies.entries
  · rw [hr]; exact hI.aligned
  · intro a mux hm
    rw [match_eq_hostOf d addrs conf p h a, hr] at hm
    rw [hr]
    have hb : ∀ c ∈ callsAt a st.calls, ∃ s ps, c.result d = .ok (s, ps) := by
      intro c hc
      exact hI.built c (List.mem_of_mem_filter hc)
    cases hcs : callsAt a st.calls with
    | nil => rw [hcs] at hm; simp [hostOf] at hm
    | cons x cs =>
      rw [hcs] at hm hb
      simp only [hostOf, Option.some.injEq] at hm
      subst hm
      exact registeredAs_filterMap d (x :: cs) hb
  · apply List.Perm.length_eq
    refine (List.perm_ext_iff_of_nodup p.proxies.nodup (List.nodup_dedup _)).2 ?_
    intro a
    rw [List.mem_dedup]
    exact keys_of_run d addrs conf p h a

theorem one_host_per_host_string_witness :
    NewAnyProxy demo demoAddrs none = (some demoRegistry, none) ∧
    (demoRegistry.Match ":9000").isSome = true ∧
    (demoRegistry.Match ":9002").isSome = false ∧
    demoRegistry.proxies.keys.length = 2 ∧
    (parsedHosts demo demoAddrs).dedup.length = 2 ∧
    ((∀ a, (demoRegistry.Match a).isSome ↔
        ∃ addr ∈ demoAddrs, ∃ u, demo.Parse addr = .ok u ∧ u.Host = a) ∧
      Aligned demo demoAddrs (NewAnyProxyRun demo demoAddrs none).1.calls ∧
      (∀ a mux, demoRegistry.Match a = some mux →
        RegisteredAs demo (callsAt a (NewAnyProxyRun demo demoAddrs none).1.calls)
          mux.cmux.calls) ∧
      demoRegistry.proxies.keys.length = (parsedHosts demo demoAddrs).dedup.length) :=
  ⟨rfl, by decide, by decide, by decide, by decide,
    one_host_per_host_string demo demoAddrs none demoRegistry rfl⟩

/-! ## Fallback registrations -/

theorem registration_none (d : Deps) (c : Call) (s : ServeConn)
    (h : c.result d = .ok (s, none)) : Call.registration d c = some (.notFound s) := by
  simp [Call.registration, h, registrationOf]

theorem fallback_seen (d : Deps) (pre mid : List Call) (c1 : Call) (s1 : ServeConn)
    (a : String) (ha : c1.u.Host = a) (h1 : c1.result d = .ok (s1, none)) :
    ((callsAt a (pre ++ c1 :: mid)).filterMap (Call.registration d)).any
      Registration.isNotFound = true := by
  rw [List.any_eq_true]
  refine ⟨.notFound s1, ?_, rfl⟩
  rw [List.mem_filterMap]
  refine ⟨c1, ?_, registration_none d c1 s1 h1⟩
  simp [callsAt, ha]

theorem no_second_fallback (d : Deps) (conf : Config) (addrs : List String) (st : Build)
    (hI : Inv d conf addrs st) (hNF : NotFoundOnce d)
    (pre mid post : List Call) (c1 c2 : Call) (s1 s2 : ServeConn)
    (hsplit : st.calls = pre ++ c1 :: (mid ++ c2 :: post))
    (hh : c1.u.Host = c2.u.Host) (h1 : c1.result d = .ok (s1, none))
    (h2 : c2.result d = .ok (s2, none)) : False := by
  have hacc := hI.accepted (pre ++ c1 :: mid) c2 post s2 (by rw [hsplit]; simp) h2
  have hsome := hNF ⟨(callsAt c2.u.Host (pre ++ c1 :: mid)).filterMap (Call.registration d)⟩ s2
  rw [hacc] at hsome
  simp only [Option.isSome_none] at hsome
  rw [fallback_seen d pre mid c1 s1 c2.u.Host hh h1] at hsome
  cases hsome

theorem fallback_at_most_once (d : Deps) (hNF : NotFoundOnce d) (calls : List Call)
    (hacc : ∀ pre c post s, calls = pre ++ c :: post → c.result d = .ok (s, none) →
      d.NotFound ⟨(callsAt c.u.Host pre).filterMap (Call.registration d)⟩ s = none)
    (a : String) :
    (((callsAt a calls).filterMap (Call.registration d)).filter
      Registration.isNotFound).length ≤ 1 := by
  induction calls using List.reverseRecOn with
  | nil => simp [callsAt]
  | append_singleton cs c ih =>
    have ih' := ih (fun pre c' post s hs hc =>
      hacc pre c' (post ++ [c]) s (by rw [hs]; simp) hc)
    rw [callsAt_append, callsAt_single]
    by_cases hx : c.u.Host = a
    · simp only [hx, if_true, List.filterMap_append, List.filter_append, List.length_append]
      rcases hres : c.result d with err | ⟨s, _ | ps⟩
      · have : Call.registration d c = none := by simp [Call.registration, hres]
        simp only [List.filterMap_cons, this, List.filterMap_nil, List.filter_nil,
          List.length_nil, Nat.add_zero]
        exact ih'
      · have hn := hacc cs c [] s rfl hres
        have hsome := hNF ⟨(callsAt c.u.Host cs).filterMap (Call.registration d)⟩ s
        rw [hn, hx] at hsome
        simp only [Option.isSome_none] at hsome
        have hnone : ((callsAt a cs).filterMap (Call.registration d)).filter
            Registration.isNotFound = [] := by
          rw [List.filter_eq_nil_iff]
          intro r hr hr'
          have : ((callsAt a cs).filterMap (Call.registration d)).any
              Registration.isNotFound = true := List.any_eq_true.2 ⟨r, hr, hr'⟩
          rw [this] at hsome
          cases hsome
        rw [hnone]
        simp [registration_none d c s hres, Registration.isNotFound]
      · have : Call.registration d c = some (.handlePrefix s ps) := by
          simp [Call.registration, hres, registrationOf]
        simp only [List.filterMap_cons, this, List.filterMap_nil]
        simp only [List.filter_cons, Registration.isNotFound, List.filter_nil]
        simpa using ih'
    · simp only [hx, if_false, List.append_nil]
      exact ih'

/-- C2. Under `NotFoundOnce`: when the calls of a run contain two calls for
the same host whose factory results both carry the nil pattern slice,
`NewAnyProxy` returns no registry and an error; the error is the one that the
fallback registration of the second gives on the dispatcher holding the
earlier registrations of that host, the second call is the last call of the
run, and no descriptor after it is parsed. Hence a Host of a built registry
has at most one fallback registration. -/
theorem second_fallback_fails (d : Deps) (hNF : NotFoundOnce d) (addrs : List String)
    (conf : Option Config) :
    (∀ pre c1 mid c2 post s1 s2,
      (NewAnyProxyRun d addrs conf).1.calls = pre ++ c1 :: (mid ++ c2 :: post) →
      c1.u.Host = c2.u.Host → c1.result d = .ok (s1, none) → c2.result d = .ok (s2, none) →
        (NewAnyProxy d addrs conf).1 = none ∧
        (NewAnyProxy d addrs conf).2.isSome = true ∧
        (NewAnyProxy d addrs conf).2 =
          d.NotFound ⟨(callsAt c2.u.Host (pre ++ c1 :: mid)).filterMap (Call.registration d)⟩ s2 ∧
        post = [] ∧
        (NewAnyProxyRun d addrs conf).1.parsed = addrs.take (pre.length + mid.length + 2)) ∧
    (∀ p a mux, NewAnyProxy d addrs conf = (some p, none) → p.Match a = some mux →
      (mux.cmux.calls.filter Registration.isNotFound).length ≤ 1) := by
  constructor
  · intro pre c1 mid c2 post s1 s2 hsplit hh h1 h2
    unfold NewAnyProxy
    unfold NewAnyProxyRun at hsplit ⊢
    rcases run_cases d (normalize d conf) addrs with
      ⟨st, hl, hI⟩ | ⟨P, a, Q, st, st', err, haddrs, hl, hI, hit, hl'⟩
    · rw [hl] at hsplit
      exact (no_second_fallback d _ addrs st hI hNF pre mid post c1 c2 s1 s2 hsplit hh h1 h2).elim
    · rw [hl'] at hsplit ⊢
      simp only at hsplit ⊢
      have hc := iteration_case d (normalize d conf) st a
      generalize hr : iteration d (normalize d conf) st a = r at hc hit
      have hsplit2 : st'.calls = (pre ++ c1 :: mid) ++ c2 :: post := by rw [hsplit]; simp
      cases hc with
      | parseError e hp =>
        simp only [Prod.mk.injEq] at hit
        rw [← hit.1] at hsplit
        exact (no_second_fallback d _ P st hI hNF pre mid post c1 c2 s1 s2 hsplit hh h1 h2).elim
      | factoryError u e hp hf =>
        simp only [Prod.mk.injEq] at hit
        rw [← hit.1] at hsplit2
        rcases snoc_split st.calls _ _ c2 post hsplit2 with ⟨_, _, hc2⟩ | ⟨post', _, h3⟩
        · subst hc2
          have h2' : d.NewServeConn u.Scheme u.Host
              (hostconfOf (normalize d conf) (recordUser st.users u) u) = .ok (s2, none) := h2
          rw [hf] at h2'
          cases h2'
        · have h3' : st.calls = pre ++ c1 :: (mid ++ c2 :: post') := by rw [h3]; simp
          exact (no_second_fallback d _ P st hI hNF pre mid post' c1 c2 s1 s2 h3' hh h1 h2).elim
      | conflict u s e hp hf hn =>
        simp only [Prod.mk.injEq, Option.some.injEq] at hit
        obtain ⟨hst, herr⟩ := hit
        rw [← hst] at hsplit2
        rcases snoc_split st.calls _ _ c2 post hsplit2 with ⟨hpost, hpre, hc2⟩ | ⟨post', _, h3⟩
        · subst hc2
          have h2' : d.NewServeConn u.Scheme u.Host
              (hostconfOf (normalize d conf) (recordUser st.users u) u) = .ok (s2, none) := h2
          rw [hf] at h2'
          simp only [Except.ok.injEq, Prod.mk.injEq, and_true] at h2'
          subst h2'
          rw [resolveHost_cmux d _ st.proxies st.calls u.Host (hI.proxies u.Host)] at hn
          refine ⟨trivial, rfl, ?_, hpost, ?_⟩
          · rw [← herr, hpre, hn]
          · rw [← hst]
            have hlen : st.calls.length = P.length := hI.aligned.length_eq.symm
            have hlen2 : pre.length + mid.length + 2 = P.length + 1 := by
              rw [← hlen, ← hpre]; simp; omega
            simp only [afterCall, hI.parsed, hlen2, haddrs]
            rw [List.take_append_eq_append_take]
            simp
        · have h3' : st.calls = pre ++ c1 :: (mid ++ c2 :: post') := by rw [h3]; simp
          exact (no_second_fallback d _ P st hI hNF pre mid post' c1 c2 s1 s2 h3' hh h1 h2).elim
      | done u s patterns hp hf hn => simp at hit
  · intro p a mux hp hm
    obtain ⟨st, hr, hpe, hI⟩ := NewAnyProxy_ok d addrs conf p hp
    rw [match_eq_hostOf d addrs conf p hp a, hr] at hm
    have := fallback_at_most_once d hNF st.calls hI.accepted a
    cases hcs : callsAt a st.calls with
    | nil => rw [hcs] at hm; simp [hostOf] at hm
    | cons x cs =>
      rw [hcs] at hm this
      simp only [hostOf, Option.some.injEq] at hm
      subst hm
      exact this

theorem notFoundOnce_demo : NotFoundOnce demo := by
  intro m s
  simp only [demo]
  cases m.calls.any Registration.isNotFound <;> rfl

theorem second_fallback_fails_witness :
    NotFoundOnce demo ∧
    (NewAnyProxyRun demo demoConflict none).1.calls =
      [] ++ demoCall "beta" ":9000" :: ([demoCall "alpha" ":9000"] ++ demoCall "delta" ":9000" :: []) ∧
    (demoCall "beta" ":9000").result demo = .ok (⟨"beta", none, some "up://1"⟩, none) ∧
    (demoCall "delta" ":9000").result demo = .ok (⟨"delta", none, some "up://1"⟩, none) ∧
    (NewAnyProxy demo demoConflict none).2 = some (.ext "not found handler already exists") ∧
    (NewAnyProxyRun demo demoConflict none).1.parsed =
      ["beta://:9000", "alpha://:9000", "delta://:9000"] ∧
    ((NewAnyProxy demo demoConflict none).1 = none ∧
      (NewAnyProxy demo demoConflict none).2.isSome = true ∧
      (NewAnyProxy demo demoConflict none).2 =
        demo.NotFound ⟨(callsAt (demoCall "delta" ":9000").u.Host
          ([] ++ demoCall "beta" ":9000" :: [demoCall "alpha" ":9000"])).filterMap
            (Call.registration demo)⟩ ⟨"delta", none, some "up://1"⟩ ∧
      ([] : List Call) = [] ∧
      (NewAnyProxyRun demo demoConflict none).1.parsed =
        demoConflict.take (([] : List Call).length + [demoCall "alpha" ":9000"].length + 2)) :=
  ⟨notFoundOnce_demo, rfl, rfl, rfl, by decide, by decide,
    (second_fallback_fails demo notFoundOnce_demo demoConflict none).1
      [] (demoCall "beta" ":9000") [demoCall "alpha" ":9000"] (demoCall "delta" ":9000") []
      ⟨"beta", none, some "up://1"⟩ ⟨"delta", none, some "up://1"⟩ rfl rfl rfl rfl⟩

/-! ## The configuration handed to the factory -/

theorem iteration_calls (d : Deps) (conf : Config) (st : Build) (a : String) :
    (iteration d conf st a).1.calls = st.calls ∨
    ∃ u, d.Parse a = .ok u ∧
      (iteration d conf st a).1.calls =
        st.calls ++ [⟨u, hostconfOf conf (recordUser st.users u) u⟩] := by
  have hc := iteration_case d conf st a
  generalize iteration d conf st a = r at hc
  cases hc with
  | parseError err hp => exact .inl rfl
  | factoryError u err hp hf => exact .inr ⟨u, hp, rfl⟩
  | conflict u s err hp hf hn => exact .inr ⟨u, hp, rfl⟩
  | done u s patterns hp hf hn => exact .inr ⟨u, hp, rfl⟩

/-- In every run, failed or not, each call of the factory receives the
configuration `hostconfFor` of the descriptors parsed so far. -/
theorem run_hostconf (d : Deps) (conf : Config) (addrs : List String)
    (pre : List Call) (c : Call) (post : List Call)
    (h : (loop d conf addrs Build.init).1.calls = pre ++ c :: post) :
    c.hostconf = hostconfFor conf (pre.map Call.u) c.u := by
  rcases run_cases d conf addrs with
    ⟨st, hl, hI⟩ | ⟨P, a, Q, st, st', err, _, _, hI, hit, hl'⟩
  · rw [hl] at h
    exact hI.hostconf pre c post h
  · rw [hl'] at h
    have hst : st' = (iteration d conf st a).1 := by rw [hit]
    rcases iteration_calls d conf st a with hc | ⟨u, _, hc⟩
    · rw [hst, hc] at h
      exact hI.hostconf pre c post h
    · rw [hst, hc] at h
      exact hostconf_snoc conf st.calls _ hI.hostconf
        (hostconfOf_recordUser conf st.users (st.calls.map Call.u) u hI.users) pre c post h

/-- In every run each recorded call belongs to a descriptor of the list. -/
theorem run_fromParse (d : Deps) (conf : Config) (addrs : List String) (c : Call)
    (h : c ∈ (loop d conf addrs Build.init).1.calls) :
    ∃ a ∈ addrs, d.Parse a = .ok c.u := by
  have hal : ∀ (l : List String) (cs : List Call),
      List.Forall₂ (fun a c => d.Parse a = .ok c.u) l cs → ∀ c ∈ cs, ∃ a ∈ l, d.Parse a = .ok c.u := by
    intro l cs hf
    induction hf with
    | nil => intro c hc; cases hc
    | cons hp _ ih =>
      intro c hc
      rcases List.mem_cons.1 hc with hc | hc
      · subst hc; exact ⟨_, List.mem_cons_self _ _, hp⟩
      · obtain ⟨a, ha, hpa⟩ := ih c hc
        exact ⟨a, List.mem_cons_of_mem _ ha, hpa⟩
  rcases run_cases d conf addrs with
    ⟨st, hl, hI⟩ | ⟨P, a, Q, st, st', err, haddrs, _, hI, hit, hl'⟩
  · rw [hl] at h
    exact hal addrs st.calls hI.aligned c h
  · rw [hl'] at h
    have hst : st' = (iteration d conf st a).1 := by rw [hit]
    have hP : ∀ c ∈ st.calls, ∃ x ∈ addrs, d.Parse x = .ok c.u := by
      intro c hc
      obtain ⟨x, hx, hpx⟩ := hal P st.calls hI.aligned c hc
      exact ⟨x, by rw [haddrs]; exact List.mem_append_left _ hx, hpx⟩
    rcases iteration_calls d conf st a with hc | ⟨u, hp, hc⟩
    · rw [hst, hc] at h
      exact hP c h
    · rw [hst, hc] at h
      rcases List.mem_append.1 h with h | h
      · exact hP c h
      · simp only [List.mem_singleton] at h
        subst h
        exact ⟨a, by rw [haddrs]; simp, hp⟩

theorem colon_split (l1 l2 r1 r2 : List Char) (h1 : ':' ∉ l1) (h2 : ':' ∉ l2)
    (h : l1 ++ ':' :: r1 = l2 ++ ':' :: r2) : l1 = l2 ∧ r1 = r2 := by
  induction l1 generalizing l2 with
  | nil =>
    cases l2 with
    | nil => simpa using h
    | cons y l2 =>
      simp only [List.nil_append, List.cons_append, List.cons.injEq] at h
      exact absurd (h.1 ▸ List.mem_cons_self _ _) h2
  | cons x l1 ih =>
    cases l2 with
    | nil =>
      simp only [List.nil_append, List.cons_append, List.cons.injEq] at h
      exact absurd (h.1 ▸ List.mem_cons_self _ _) h1
    | cons y l2 =>
      simp only [List.cons_append, List.cons.injEq] at h
      obtain ⟨hxy, hrest⟩ := h
      obtain ⟨hl, hr⟩ := ih l2 (fun hm => h1 (List.mem_cons_of_mem _ hm))
        (fun hm => h2 (List.mem_cons_of_mem _ hm)) hrest
      exact ⟨by rw [hxy, hl], hr⟩

/-- The key `scheme://host` determines scheme and host when schemes are
free of `:`. -/
theorem unique_inj (u v : URL) (hu : ':' ∉ u.Scheme.toList) (hv : ':' ∉ v.Scheme.toList) :
    unique u = unique v ↔ u.Scheme = v.Scheme ∧ u.Host = v.Host := by
  constructor
  · intro h
    have hd := congrArg String.data h
    simp only [unique, String.data_append] at hd
    simp only [List.append_assoc, List.cons_append, List.nil_append] at hd
    obtain ⟨h1, h2⟩ := colon_split _ _ _ _ hu hv hd
    simp only [List.cons.injEq, true_and] at h2
    exact ⟨String.ext h1, String.ext h2⟩
  · rintro ⟨h1, h2⟩
    simp only [unique, h1, h2]

theorem tableParse_mem (table : List (String × URL)) (a : String) (u : URL)
    (h : tableParse table a = .ok u) : u ∈ table.map Prod.snd := by
  unfold tableParse at h
  rcases hg : assocGet a table with _ | v
  · rw [hg] at h; cases h
  · rw [hg] at h
    simp only [Except.ok.injEq] at h
    subst h
    induction table with
    | nil => simp [assocGet] at hg
    | cons e rest ih =>
      obtain ⟨k, w⟩ := e
      simp only [assocGet] at hg
      split at hg
      · simp only [Option.some.injEq] at hg
        simp [hg]
      · exact List.mem_cons_of_mem _ (ih hg)

theorem schemeOK_demo : SchemeOK demo := by
  intro a u h
  have hm := tableParse_mem demoURLs a u h
  have hall : ∀ v ∈ demoURLs.map Prod.snd, ':' ∉ v.Scheme.toList := by decide
  exact hall u hm

/-- A check of all parsed descriptors of a list. -/
theorem all_parsed (d : Deps) (addrs : List String) (q : URL → Bool)
    (h : addrs.all (fun a =>
      match d.Parse a with
      | .ok u => q u
      | .error _ => true) = true) :
    ∀ a ∈ addrs, ∀ u, d.Parse a = .ok u → q u = true := by
  intro a ha u hp
  have := List.all_eq_true.1 h a ha
  rw [hp] at this
  exact this

theorem sameGroup_iff_unique (d : Deps) (hS : SchemeOK d) (c x : Call) (a b : String)
    (hc : d.Parse a = .ok c.u) (hx : d.Parse b = .ok x.u) :
    decide (unique x.u = unique c.u) = sameGroup c x := by
  unfold sameGroup
  rw [decide_eq_decide]
  exact unique_inj x.u c.u (hS b x.u hx) (hS a c.u hc)

theorem credsOf_all (g : List URL) (h : ∀ u ∈ g, u.User.isSome = true) :
    credsOf g = g.filterMap URL.User := by
  unfold credsOf
  rw [if_pos]
  rw [List.all_eq_true]
  exact h

/-- The credentials handed over for a descriptor that carries a credential
and has no credential-less descriptor of its scheme and host before it. -/
theorem users_of_group (d : Deps) (hS : SchemeOK d) (addrs : List String) (conf : Config)
    (pre : List Call) (c : Call) (post : List Call)
    (hsplit : (loop d conf addrs Build.init).1.calls = pre ++ c :: post)
    (hprev : ∀ x ∈ pre, sameGroup c x = true → x.u.User.isSome = true)
    (hc : c.u.User.isSome = true) :
    c.hostconf.Users =
      ((pre ++ [c]).filter (sameGroup c)).filterMap (fun x => x.u.User) ++ conf.Users := by
  have hmem : ∀ x ∈ pre ++ [c], x ∈ (loop d conf addrs Build.init).1.calls := by
    intro x hx
    rw [hsplit]
    rcases List.mem_append.1 hx with hx | hx
    · exact List.mem_append_left _ hx
    · simp only [List.mem_singleton] at hx
      subst hx
      exact List.mem_append_right _ (List.mem_cons_self _ _)
  obtain ⟨a, _, hpa⟩ := run_fromParse d conf addrs c (hmem c (by simp))
  have hgroup : group (unique c.u) (pre.map Call.u ++ [c.u]) =
      ((pre ++ [c]).filter (sameGroup c)).map Call.u := by
    have : pre.map Call.u ++ [c.u] = (pre ++ [c]).map Call.u := by simp
    rw [this, group, List.filter_map]
    congr 1
    apply List.filter_congr
    intro x hx
    obtain ⟨b, _, hpb⟩ := run_fromParse d conf addrs x (hmem x hx)
    exact sameGroup_iff_unique d hS c x a b hpa hpb
  rw [run_hostconf d conf addrs pre c post hsplit]
  simp only [hostconfFor]
  rw [hgroup, credsOf_all, List.filterMap_map]
  · rfl
  · intro u hu
    rw [List.mem_map] at hu
    obtain ⟨x, hx, hxu⟩ := hu
    subst hxu
    rw [List.mem_filter] at hx
    rcases List.mem_append.1 hx.1 with hx1 | hx1
    · exact hprev x hx1 hx.2
    · simp only [List.mem_singleton] at hx1
      subst hx1
      exact hc

theorem sameGroup_self (c : Call) : sameGroup c c = true := by
  simp [sameGroup]

/-- C4. When every descriptor of a given scheme and host carries a
credential, the handler of each of them is handed the credentials of the
descriptors of that scheme and host up to and including its own, in
descriptor order and with repeats, followed by the default credentials of
the base configuration. -/
theorem credentials_in_descriptor_order (d : Deps) (hS : SchemeOK d) (addrs : List String)
    (conf : Option Config) (scheme host : String)
    (hall : ∀ a ∈ addrs, ∀ u, d.Parse a = .ok u → u.Scheme = scheme → u.Host = host →
      u.User.isSome = true)
    (pre : List Call) (c : Call) (post : List Call)
    (hsplit : (NewAnyProxyRun d addrs conf).1.calls = pre ++ c :: post)
    (hs : c.u.Scheme = scheme) (hh : c.u.Host = host) :
    c.hostconf.Users =
      ((pre ++ [c]).filter (fun x => decide (x.u.Scheme = scheme ∧ x.u.Host = host))).filterMap
        (fun x => x.u.User) ++ (normalize d conf).Users := by
  have hsome : ∀ x ∈ (NewAnyProxyRun d addrs conf).1.calls, sameGroup c x = true →
      x.u.User.isSome = true := by
    intro x hx hg
    obtain ⟨a, ha, hpa⟩ := run_fromParse d (normalize d conf) addrs x hx
    simp only [sameGroup, decide_eq_true_eq] at hg
    exact hall a ha x.u hpa (hg.1.trans hs) (hg.2.trans hh)
  have hfilter : (fun x : Call => decide (x.u.Scheme = scheme ∧ x.u.Host = host)) = sameGroup c := by
    funext x
    simp only [sameGroup, hs, hh]
  rw [hfilter]
  refine users_of_group d hS addrs (normalize d conf) pre c post hsplit ?_ ?_
  · intro x hx
    exact hsome x (by rw [hsplit]; exact List.mem_append_left _ hx)
  · exact hsome c (by rw [hsplit]; simp) (sameGroup_self c)

theorem credentials_in_descriptor_order_witness :
    SchemeOK demo ∧
    (NewAnyProxyRun demo demoCredentials (some demoConf)).1.calls =
      [demoCallWith "http" (some demoU1) "x=1" [demoU1],
        demoCallWith "socks5" (some demoU3) "" [demoU3],
        demoCallWith "http" (some demoU2) "y=2" [demoU1, demoU2]] ++
      demoCallWith "http" (some demoU1) "x=1" [demoU1, demoU2, demoU1] :: [] ∧
    (demoCallWith "http" (some demoU1) "x=1" [demoU1, demoU2, demoU1]).hostconf.Users =
      [demoU1, demoU2, demoU1, ⟨"root", none⟩] ∧
    (demoCallWith "http" (some demoU1) "x=1" [demoU1, demoU2, demoU1]).hostconf.Users =
      (([demoCallWith "http" (some demoU1) "x=1" [demoU1],
          demoCallWith "socks5" (some demoU3) "" [demoU3],
          demoCallWith "http" (some demoU2) "y=2" [demoU1, demoU2]] ++
        [demoCallWith "http" (some demoU1) "x=1" [demoU1, demoU2, demoU1]]).filter
          (fun x => decide (x.u.Scheme = "http" ∧ x.u.Host = "h:80"))).filterMap
        (fun x => x.u.User) ++ (normalize demo (some demoConf)).Users :=
  ⟨schemeOK_demo, rfl, rfl,
    credentials_in_descriptor_order demo schemeOK_demo demoCredentials (some demoConf)
      "http" "h:80"
      (fun a ha u hp hs hh => of_decide_eq_true (all_parsed demo demoCredentials
        (fun u => decide (u.Scheme = "http" ∧ u.Host = "h:80" → u.User.isSome = true))
        (by decide) a ha u hp) ⟨hs, hh⟩)
      [demoCallWith "http" (some demoU1) "x=1" [demoU1],
        demoCallWith "socks5" (some demoU3) "" [demoU3],
        demoCallWith "http" (some demoU2) "y=2" [demoU1, demoU2]]
      (demoCallWith "http" (some demoU1) "x=1" [demoU1, demoU2, demoU1]) [] rfl rfl rfl⟩

/-- C3, as amended. A descriptor that carries a credential, and before which
no descriptor of the same scheme and host lacks one, has its credential
appended to the list of its group: its handler is handed the credentials of
the earlier descriptors of the same scheme and host, in order and with
repeats, then its own credential, then the default credentials. -/
theorem own_credential_appended (d : Deps) (hS : SchemeOK d) (addrs : List String)
    (conf : Option Config) (pre : List Call) (c : Call) (post : List Call) (cred : Userinfo)
    (hsplit : (NewAnyProxyRun d addrs conf).1.calls = pre ++ c :: post)
    (hcred : c.u.User = some cred)
    (hprev : ∀ x ∈ pre, x.u.Scheme = c.u.Scheme → x.u.Host = c.u.Host →
      x.u.User.isSome = true) :
    c.hostconf.Users =
      (pre.filter (sameGroup c)).filterMap (fun x => x.u.User) ++
        cred :: (normalize d conf).Users := by
  have hu := users_of_group d hS addrs (normalize d conf) pre c post hsplit
    (fun x hx hg => by
      simp only [sameGroup, decide_eq_true_eq] at hg
      exact hprev x hx hg.1 hg.2)
    (by rw [hcred]; rfl)
  rw [hu, List.filter_append, List.filterMap_append]
  simp [sameGroup_self, hcred]

theorem own_credential_appended_witness :
    SchemeOK demo ∧
    (NewAnyProxyRun demo demoCredentials (some demoConf)).1.calls =
      [demoCallWith "http" (some demoU1) "x=1" [demoU1],
        demoCallWith "socks5" (some demoU3) "" [demoU3]] ++
      demoCallWith "http" (some demoU2) "y=2" [demoU1, demoU2] ::
        [demoCallWith "http" (some demoU1) "x=1" [demoU1, demoU2, demoU1]] ∧
    (demoCallWith "http" (some demoU2) "y=2" [demoU1, demoU2]).hostconf.Users =
      [demoU1, demoU2, ⟨"root", none⟩] ∧
    (demoCallWith "http" (some demoU2) "y=2" [demoU1, demoU2]).hostconf.Users =
      ([demoCallWith "http" (some demoU1) "x=1" [demoU1],
          demoCallWith "socks5" (some demoU3) "" [demoU3]].filter
        (sameGroup (demoCallWith "http" (some demoU2) "y=2" [demoU1, demoU2]))).filterMap
          (fun x => x.u.User) ++ demoU2 :: (normalize demo (some demoConf)).Users :=
  ⟨schemeOK_demo, rfl, rfl,
    own_credential_appended demo schemeOK_demo demoCredentials (some demoConf)
      [demoCallWith "http" (some demoU1) "x=1" [demoU1],
        demoCallWith "socks5" (some demoU3) "" [demoU3]]
      (demoCallWith "http" (some demoU2) "y=2" [demoU1, demoU2])
      [demoCallWith "http" (some demoU1) "x=1" [demoU1, demoU2, demoU1]]
      demoU2 rfl rfl (by decide)⟩

/-- C3 fails as stated: after the credential-less descriptor `http://h:80`
the descriptor `http://u1:p1@h:80?x=1` carries the credential `u1:p1`, yet
its handler is handed the default credentials only. -/
theorem credential_after_bare_descriptor_not_handed :
    (NewAnyProxyRun demo demoBareFirst (some demoConf)).1.calls.map
        (fun c => (c.u.Scheme, c.u.Host, c.u.User, c.hostconf.Users)) =
      [("http", "h:80", none, [⟨"root", none⟩]),
        ("http", "h:80", some demoU1, [⟨"root", none⟩])] ∧
    demoU1 ∉ [(⟨"root", none⟩ : Userinfo)] := by
  decide

/-- C5, as amended. The raw-query list handed to the handler of a descriptor
contains the raw query of that descriptor; every other entry comes from the
base configuration, none from another descriptor. -/
theorem own_raw_query_handed (d : Deps) (addrs : List String) (conf : Option Config)
    (pre : List Call) (c : Call) (post : List Call)
    (hsplit : (NewAnyProxyRun d addrs conf).1.calls = pre ++ c :: post) :
    c.u.RawQuery ∈ c.hostconf.RawQueries ∧
    ∀ q ∈ c.hostconf.RawQueries, q = c.u.RawQuery ∨ q ∈ (normalize d conf).RawQueries := by
  rw [run_hostconf d (normalize d conf) addrs pre c post hsplit]
  simp only [hostconfFor, List.mem_append, List.mem_singleton]
  exact ⟨.inr trivial, fun q hq => hq.symm⟩

theorem own_raw_query_handed_witness :
    (NewAnyProxyRun demo demoCredentials none).1.calls =
      [⟨⟨"http", "h:80", some demoU1, "x=1"⟩, ⟨["x=1"], [demoU1], some demo.netListenConfig⟩⟩,
        ⟨⟨"socks5", "h:80", some demoU3, ""⟩, ⟨[""], [demoU3], some demo.netListenConfig⟩⟩] ++
      ⟨⟨"http", "h:80", some demoU2, "y=2"⟩,
        ⟨["y=2"], [demoU1, demoU2], some demo.netListenConfig⟩⟩ ::
      [⟨⟨"http", "h:80", some demoU1, "x=1"⟩,
        ⟨["x=1"], [demoU1, demoU2, demoU1], some demo.netListenConfig⟩⟩] ∧
    ("y=2" ∈ ["y=2"] ∧
      ∀ q ∈ ["y=2"], q = "y=2" ∨ q ∈ (normalize demo none).RawQueries) :=
  ⟨rfl, own_raw_query_handed demo demoCredentials none
    [⟨⟨"http", "h:80", some demoU1, "x=1"⟩, ⟨["x=1"], [demoU1], some demo.netListenConfig⟩⟩,
      ⟨⟨"socks5", "h:80", some demoU3, ""⟩, ⟨[""], [demoU3], some demo.netListenConfig⟩⟩]
    ⟨⟨"http", "h:80", some demoU2, "y=2"⟩, ⟨["y=2"], [demoU1, demoU2], some demo.netListenConfig⟩⟩
    [⟨⟨"http", "h:80", some demoU1, "x=1"⟩,
      ⟨["x=1"], [demoU1, demoU2, demoU1], some demo.netListenConfig⟩⟩] rfl⟩

/-- C5 fails as stated: the first and the third descriptor share scheme
`http` and host `h:80`, yet the raw-query list handed for the third holds
`y=2` without the `x=1` of the first, and the list handed for the first holds
`x=1` without `y=2`. -/
theorem raw_query_of_same_group_not_handed :
    (NewAnyProxyRun demo demoCredentials none).1.calls.map
        (fun c => (c.u.Scheme, c.u.Host, c.u.RawQuery, c.hostconf.RawQueries)) =
      [("http", "h:80", "x=1", ["x=1"]), ("socks5", "h:80", "", [""]),
        ("http", "h:80", "y=2", ["y=2"]), ("http", "h:80", "x=1", ["x=1"])] ∧
    "x=1" ∉ ["y=2"] ∧ "y=2" ∉ ["x=1"] := by
  decide

/-! ## Registration and upstream URLs -/

/-- C6, as amended. In a built registry the Host of a descriptor holds, at
the position of that descriptor among the descriptors of its host, one
registration of its handler: a fallback registration when the factory
returned the nil pattern slice, and a registration under exactly the
returned patterns, not a fallback registration, when the slice is not nil,
empty or not. -/
theorem registered_by_patterns (d : Deps) (addrs : List String) (conf : Option Config)
    (p : AnyProxy) (h : NewAnyProxy d addrs conf = (some p, none))
    (pre : List Call) (c : Call) (post : List Call)
    (hsplit : (NewAnyProxyRun d addrs conf).1.calls = pre ++ c :: post)
    (s : ServeConn) (patterns : Option (List String))
    (hres : c.result d = .ok (s, patterns)) :
    ∃ mux reg, p.Match c.u.Host = some mux ∧
      mux.cmux.calls =
        (callsAt c.u.Host pre).filterMap (Call.registration d) ++
          reg :: (callsAt c.u.Host post).filterMap (Call.registration d) ∧
      (patterns = none → reg = Registration.notFound s) ∧
      (∀ ps, patterns = some ps → reg = Registration.handlePrefix s ps) := by
  have hreg : Call.registration d c = some (registrationOf s patterns) := by
    simp [Call.registration, hres]
  have hat : callsAt c.u.Host (pre ++ c :: post) =
      callsAt c.u.Host pre ++ c :: callsAt c.u.Host post := by
    simp [callsAt]
  have hcalls : (callsAt c.u.Host pre ++ c :: callsAt c.u.Host post).filterMap
      (Call.registration d) =
        (callsAt c.u.Host pre).filterMap (Call.registration d) ++
          registrationOf s patterns ::
            (callsAt c.u.Host post).filterMap (Call.registration d) := by
    rw [List.filterMap_append, List.filterMap_cons, hreg]
  rw [match_eq_hostOf d addrs conf p h c.u.Host, hsplit, hat]
  have hne : ∃ x xs, callsAt c.u.Host pre ++ c :: callsAt c.u.Host post = x :: xs := by
    cases callsAt c.u.Host pre with
    | nil => exact ⟨_, _, rfl⟩
    | cons x xs => exact ⟨_, _, rfl⟩
  obtain ⟨x, xs, hx⟩ := hne
  rw [hx] at hcalls ⊢
  refine ⟨_, registrationOf s patterns, rfl, hcalls, ?_, ?_⟩
  · intro hp; subst hp; rfl
  · intro ps hp; subst hp; rfl

theorem registered_by_patterns_witness :
    NewAnyProxy demo demoAddrs none = (some demoRegistry, none) ∧
    (NewAnyProxyRun demo demoAddrs none).1.calls =
      [demoCall "alpha" ":9000"] ++ demoCall "beta" ":9000" :: [demoCall "gamma" ":9001"] ∧
    (demoCall "beta" ":9000").result demo = .ok (demoPlain "beta", none) ∧
    (∃ mux reg, demoRegistry.Match (demoCall "beta" ":9000").u.Host = some mux ∧
      mux.cmux.calls =
        (callsAt (demoCall "beta" ":9000").u.Host [demoCall "alpha" ":9000"]).filterMap
            (Call.registration demo) ++
          reg :: (callsAt (demoCall "beta" ":9000").u.Host [demoCall "gamma" ":9001"]).filterMap
            (Call.registration demo) ∧
      ((none : Option (List String)) = none → reg = Registration.notFound (demoPlain "beta")) ∧
      (∀ ps, (none : Option (List String)) = some ps →
        reg = Registration.handlePrefix (demoPlain "beta") ps)) :=
  ⟨rfl, rfl, rfl,
    registered_by_patterns demo demoAddrs none demoRegistry rfl
      [demoCall "alpha" ":9000"] (demoCall "beta" ":9000") [demoCall "gamma" ":9001"] rfl
      (demoPlain "beta") none rfl⟩

/-- C6 fails as stated: the factory result for `bare://:9002` carries an
empty pattern slice that is not nil, and the handler is registered by
`HandlePrefix` with no pattern, not as fallback. -/
theorem empty_patterns_not_fallback :
    (demoCall "bare" ":9002").result demo = .ok (⟨"bare", none, none⟩, some []) ∧
    (NewAnyProxyRun demo ["bare://:9002"] none).2 = none ∧
    (NewAnyProxyRun demo ["bare://:9002"] none).1.proxies.entries.map
        (fun e => (e.1, e.2.cmux.calls)) =
      [(":9002", [Registration.handlePrefix ⟨"bare", none, none⟩ []])] :=
  ⟨rfl, by decide, by decide⟩

/-- C7. In a built registry the upstream URL list of the Host found under
`a` is the concatenation, over the calls for descriptors with host `a` in
descriptor order, of the URLs the handler of each exposes: its list when it
has one, else its single URL when it has one, else nothing. -/
theorem proxyURLs_concatenated (d : Deps) (addrs : List String) (conf : Option Config)
    (p : AnyProxy) (h : NewAnyProxy d addrs conf = (some p, none)) (a : String) (mux : Host)
    (hm : p.Match a = some mux) :
    Aligned d addrs (NewAnyProxyRun d addrs conf).1.calls ∧
    mux.ProxyURLs =
      (callsAt a (NewAnyProxyRun d addrs conf).1.calls).flatMap (fun c =>
        match c.result d with
        | .ok (s, _) =>
          (match s.ProxyURLs with
            | some ps => ps
            | none =>
              match s.ProxyURL with
              | some u => [u]
              | none => [])
        | .error _ => []) := by
  obtain ⟨st, hr, hp, hI⟩ := NewAnyProxy_ok d addrs conf p h
  have hup : (fun c : Call =>
      match c.result d with
      | .ok (s, _) =>
        (match s.ProxyURLs with
          | some ps => ps
          | none =>
            match s.ProxyURL with
            | some u => [u]
            | none => [])
      | .error _ => []) = Call.upstream d := by
    funext c
    unfold Call.upstream upstreamURLs
    rfl
  rw [hup]
  rw [match_eq_hostOf d addrs conf p h a] at hm
  rw [hr] at hm ⊢
  refine ⟨hI.aligned, ?_⟩
  cases hcs : callsAt a st.calls with
  | nil => rw [hcs] at hm; simp [hostOf] at hm
  | cons x cs =>
    rw [hcs] at hm
    simp only [hostOf, Option.some.injEq] at hm
    subst hm
    rfl

theorem proxyURLs_concatenated_witness :
    NewAnyProxy demo demoAddrs none = (some demoRegistry, none) ∧
    demoRegistry.Match ":9000" = some demoHost9000 ∧
    demoHost9000.ProxyURLs = ["up://1", "up://2", "up://1"] ∧
    (Aligned demo demoAddrs (NewAnyProxyRun demo demoAddrs none).1.calls ∧
      demoHost9000.ProxyURLs =
        (callsAt ":9000" (NewAnyProxyRun demo demoAddrs none).1.calls).flatMap (fun c =>
          match c.result demo with
          | .ok (s, _) =>
            (match s.ProxyURLs with
              | some ps => ps
              | none =>
                match s.ProxyURL with
                | some u => [u]
                | none => [])
          | .error _ => [])) :=
  ⟨rfl, rfl, rfl, proxyURLs_concatenated demo demoAddrs none demoRegistry rfl ":9000"
    demoHost9000 rfl⟩

/-! ## Sorted addresses -/

theorem stringLE_iff (a b : String) : stringLE a b ↔ a ≤ b :=
  String.le_iff_toList_le.symm

instance stringLE.isTotal : IsTotal String stringLE :=
  ⟨fun a b => by rw [stringLE_iff, stringLE_iff]; exact le_total a b⟩

instance stringLE.isTrans : IsTrans String stringLE :=
  ⟨fun a b c => by rw [stringLE_iff, stringLE_iff, stringLE_iff]; exact le_trans⟩

instance stringLE.isAntisymm : IsAntisymm String stringLE :=
  ⟨fun a b => by rw [stringLE_iff, stringLE_iff]; exact le_antisymm⟩

theorem sortStrings_perm (l : List String) : (sortStrings l).Perm l :=
  List.perm_insertionSort stringLE l

theorem sortStrings_sorted (l : List String) : (sortStrings l).Sorted stringLE :=
  List.sorted_insertionSort stringLE l

/-- The result of sorting does not depend on the order in which `range`
visits the keys. -/
theorem sortStrings_of_perm (l₁ l₂ : List String) (h : l₁.Perm l₂) :
    sortStrings l₁ = sortStrings l₂ :=
  List.eq_of_perm_of_sorted
    (((sortStrings_perm l₁).trans h).trans (sortStrings_perm l₂).symm)
    (sortStrings_sorted l₁) (sortStrings_sorted l₂)

theorem sortStrings_strict (l : List String) (h : l.Nodup) :
    (sortStrings l).Pairwise (fun a b => a < b) := by
  have hs : (sortStrings l).Sorted (fun a b => a ≤ b) :=
    List.Pairwise.imp (fun {a b} hab => (stringLE_iff a b).1 hab) (sortStrings_sorted l)
  have hn : (sortStrings l).Nodup := (sortStrings_perm l).nodup_iff.2 h
  exact hs.lt_of_le hn

/-- C8. `Hosts()` is strictly ascending and holds every registered address
exactly once; and two descriptor lists that are permutations of one another,
on both of which `NewAnyProxy` succeeds, give equal `Hosts()`. -/
theorem hosts_sorted_and_order_independent (q : AnyProxy) (d : Deps)
    (addrs₁ addrs₂ : List String) (conf₁ conf₂ : Option Config) (p₁ p₂ : AnyProxy)
    (hperm : addrs₁.Perm addrs₂)
    (h₁ : NewAnyProxy d addrs₁ conf₁ = (some p₁, none))
    (h₂ : NewAnyProxy d addrs₂ conf₂ = (some p₂, none)) :
    q.Hosts.Pairwise (fun a b => a < b) ∧
    (∀ a, q.Hosts.count a = if (q.Match a).isSome then 1 else 0) ∧
    p₁.Hosts = p₂.Hosts := by
  refine ⟨sortStrings_strict _ q.proxies.nodup, ?_, ?_⟩
  · intro a
    have hc : q.Hosts.count a = q.proxies.keys.count a :=
      (sortStrings_perm q.proxies.keys).count_eq a
    have hk : q.proxies.keys.count a = if a ∈ q.proxies.keys then 1 else 0 :=
      List.count_eq_of_nodup q.proxies.nodup
    rw [hc, hk]
    have hm : (q.Match a).isSome = true ↔ a ∈ q.proxies.keys :=
      assocGet_isSome a q.proxies.entries
    by_cases hin : a ∈ q.proxies.keys
    · simp [hin, hm.2 hin]
    · have : ¬ (q.Match a).isSome = true := fun hh => hin (hm.1 hh)
      simp [hin, this]
  · apply sortStrings_of_perm
    refine (List.perm_ext_iff_of_nodup p₁.proxies.nodup p₂.proxies.nodup).2 ?_
    intro a
    refine ((keys_of_run d addrs₁ conf₁ p₁ h₁ a).trans ?_).trans
      (keys_of_run d addrs₂ conf₂ p₂ h₂ a).symm
    rw [mem_parsedHosts, mem_parsedHosts]
    constructor
    · rintro ⟨addr, hm, rest⟩
      exact ⟨addr, hperm.mem_iff.1 hm, rest⟩
    · rintro ⟨addr, hm, rest⟩
      exact ⟨addr, hperm.mem_iff.2 hm, rest⟩

theorem hosts_sorted_and_order_independent_witness :
    demoAddrs.Perm demoAddrsPermuted ∧
    NewAnyProxy demo demoAddrs none = (some demoRegistry, none) ∧
    NewAnyProxy demo demoAddrsPermuted (some demoConf) = (some demoRegistryPermuted, none) ∧
    demoRegistryPermuted.proxies.keys = [":9001", ":9000"] ∧
    demoRegistryPermuted.Hosts = [":9000", ":9001"] ∧
    (demoRegistryPermuted.Hosts.Pairwise (fun a b => a < b) ∧
      (∀ a, demoRegistryPermuted.Hosts.count a =
        if (demoRegistryPermuted.Match a).isSome then 1 else 0) ∧
      demoRegistry.Hosts = demoRegistryPermuted.Hosts) :=
  ⟨by decide, rfl, rfl, by decide, by decide,
    hosts_sorted_and_order_independent demoRegistryPermuted demo demoAddrs demoAddrsPermuted
      none (some demoConf) demoRegistry demoRegistryPermuted (by decide) rfl rfl⟩

/-! ## Errors of construction -/

theorem iteration_fails_iff (d : Deps) (conf : Config) (st : Build) (a : String) (err : Error) :
    (iteration d conf st a).2 = some err ↔ Fails d conf st a err := by
  constructor
  · intro h
    have hc := iteration_case d conf st a
    generalize iteration d conf st a = r at hc h
    cases hc with
    | parseError e hp =>
      simp only [Option.some.injEq] at h
      subst h
      exact .inl hp
    | factoryError u e hp hf =>
      simp only [Option.some.injEq] at h
      subst h
      exact .inr ⟨u, hp, .inl hf⟩
    | conflict u s e hp hf hn =>
      simp only [Option.some.injEq] at h
      subst h
      exact .inr ⟨u, hp, .inr ⟨s, hf, hn⟩⟩
    | done u s patterns hp hf hn => simp at h
  · intro h
    unfold iteration
    rcases h with hp | ⟨u, hp, hf | ⟨s, hf, hn⟩⟩
    · simp only [hp]
    · simp only [hp, hf]
    · simp only [hp, hf]
      simp only [resolveHost] at hn ⊢
      simp only [hn]

theorem iteration_parsed (d : Deps) (conf : Config) (st : Build) (a : String) :
    (iteration d conf st a).1.parsed = st.parsed ++ [a] := by
  have hc := iteration_case d conf st a
  generalize iteration d conf st a = r at hc
  cases hc <;> rfl

/-- C9. `NewAnyProxy` returns a registry and no error, or an error and no
registry. It returns the error `err` exactly when the list splits into
descriptors that are processed without error, a descriptor whose iteration
fails with `err` (parse error, factory error or refused fallback
registration), and a rest; in that case the failing descriptor is the last
one parsed, no call of the factory is made for a descriptor behind it. -/
theorem newAnyProxy_atomic (d : Deps) (addrs : List String) (conf : Option Config) :
    ((∃ p, NewAnyProxy d addrs conf = (some p, none)) ∨
      (∃ err, NewAnyProxy d addrs conf = (none, some err))) ∧
    (∀ err, (NewAnyProxy d addrs conf).2 = some err ↔
      ∃ pre a post st, addrs = pre ++ a :: post ∧ NewAnyProxyRun d pre conf = (st, none) ∧
        Fails d (normalize d conf) st a err) ∧
    (∀ err pre a post st, addrs = pre ++ a :: post → NewAnyProxyRun d pre conf = (st, none) →
      Fails d (normalize d conf) st a err →
        (NewAnyProxyRun d addrs conf).1.parsed = pre ++ [a] ∧
        (NewAnyProxyRun d addrs conf).1.calls.length ≤ pre.length + 1 ∧
        ∀ c ∈ (NewAnyProxyRun d addrs conf).1.calls, ∃ x ∈ pre ++ [a], d.Parse x = .ok c.u) := by
  have hrun : ∀ err pre a post st, addrs = pre ++ a :: post →
      NewAnyProxyRun d pre conf = (st, none) → Fails d (normalize d conf) st a err →
      NewAnyProxyRun d addrs conf = ((iteration d (normalize d conf) st a).1, some err) := by
    intro err pre a post st haddrs hpre hfail
    have h2 := (iteration_fails_iff d (normalize d conf) st a err).2 hfail
    subst haddrs
    exact loop_error_of d (normalize d conf) pre post a Build.init st _ err hpre
      (Prod.ext rfl h2)
  refine ⟨?_, ?_, ?_⟩
  · unfold NewAnyProxy
    rcases NewAnyProxyRun d addrs conf with ⟨st, _ | err⟩
    · exact .inl ⟨_, rfl⟩
    · exact .inr ⟨err, rfl⟩
  · intro err
    constructor
    · intro h
      have hr : (NewAnyProxyRun d addrs conf).2 = some err := by
        unfold NewAnyProxy at h
        rcases hrr : NewAnyProxyRun d addrs conf with ⟨st, _ | e⟩
        · rw [hrr] at h; simp at h
        · rw [hrr] at h; exact h
      rcases hrr : NewAnyProxyRun d addrs conf with ⟨st', e⟩
      rw [hrr] at hr
      simp only at hr
      subst hr
      obtain ⟨pre, a, post, st, h1, h2, h3⟩ :=
        loop_error d (normalize d conf) addrs Build.init st' err hrr
      exact ⟨pre, a, post, st, h1, h2,
        (iteration_fails_iff d (normalize d conf) st a err).1 (by rw [h3])⟩
    · rintro ⟨pre, a, post, st, h1, h2, h3⟩
      unfold NewAnyProxy
      rw [hrun err pre a post st h1 h2 h3]
  · intro err pre a post st h1 h2 h3
    rw [hrun err pre a post st h1 h2 h3]
    have hI := loop_inv d (normalize d conf) pre st h2
    have hal : ∀ c ∈ st.calls, ∃ x ∈ pre ++ [a], d.Parse x = .ok c.u := by
      intro c hc
      have hmem : c ∈ (loop d (normalize d conf) pre Build.init).1.calls := by
        have h2' : loop d (normalize d conf) pre Build.init = (st, none) := h2
        rw [h2']; exact hc
      obtain ⟨x, hx, hpx⟩ := run_fromParse d (normalize d conf) pre c hmem
      exact ⟨x, List.mem_append_left _ hx, hpx⟩
    refine ⟨?_, ?_, ?_⟩
    · simp only [iteration_parsed, hI.parsed]
    · rcases iteration_calls d (normalize d conf) st a with hc | ⟨u, _, hc⟩
      · simp only [hc, ← hI.aligned.length_eq]
        omega
      · simp only [hc, List.length_append, List.length_singleton, ← hI.aligned.length_eq]
        omega
    · intro c hc
      rcases iteration_calls d (normalize d conf) st a with hcs | ⟨u, hp, hcs⟩
      · simp only [hcs] at hc
        exact hal c hc
      · simp only [hcs, List.mem_append, List.mem_singleton] at hc
        rcases hc with hc | hc
        · exact hal c hc
        · subst hc
          exact ⟨a, by simp, hp⟩

/-! ## Serving one address -/

theorem normalize_listen (d : Deps) (conf : Option Config) :
    ∃ lc, (normalize d conf).ListenConfig = some lc := by
  unfold normalize
  cases conf with
  | none => exact ⟨_, rfl⟩
  | some c =>
    simp only
    cases hl : c.ListenConfig with
    | none => exact ⟨_, rfl⟩
    | some lc => exact ⟨lc, hl⟩

theorem host_conf_of_run (d : Deps) (addrs : List String) (conf : Option Config) (p : AnyProxy)
    (h : NewAnyProxy d addrs conf = (some p, none)) (a : String) (mux : Host)
    (hm : p.Match a = some mux) : mux.conf = normalize d conf := by
  rw [match_eq_hostOf d addrs conf p h a] at hm
  cases hcs : callsAt a (NewAnyProxyRun d addrs conf).1.calls with
  | nil => rw [hcs] at hm; simp [hostOf] at hm
  | cons x cs =>
    rw [hcs] at hm
    simp only [hostOf, Option.some.injEq] at hm
    subst hm
    rfl

/-- C10. For an address that is not registered, `ListenAndServe` of any
registry returns the error `not match address` and makes no `Listen` call;
for a registered address of a built registry it makes exactly one `Listen`
call, with the given network and address. -/
theorem listenAndServe_lookup (d : Deps) (addrs : List String) (conf : Option Config)
    (p : AnyProxy) (h : NewAnyProxy d addrs conf = (some p, none)) (q : AnyProxy)
    (network address : String) (fuel : Nat) :
    (q.Match address = none →
      q.ListenAndServe network address fuel =
        { listens := [], conns := [], outcome := .returned (.notMatchAddress address) }) ∧
    ((p.Match address).isSome = true →
      (p.ListenAndServe network address fuel).listens = [(network, address)]) := by
  constructor
  · intro hq
    simp only [AnyProxy.ListenAndServe, hq]
  · intro hp
    rcases hm : p.Match address with _ | mux
    · rw [hm] at hp; cases hp
    · obtain ⟨lc, hlc⟩ := normalize_listen d conf
      have hconf := host_conf_of_run d addrs conf p h address mux hm
      simp only [AnyProxy.ListenAndServe, hm, Host.ListenAndServe, hconf, hlc]
      rcases lc.Listen network address with err | listener
      · rfl
      · rfl

theorem listenAndServe_lookup_witness :
    NewAnyProxy demo demoAddrs (some demoServingConf) = (some demoServing, none) ∧
    demoServing.ListenAndServe "tcp" "unregistered:0" 5 =
      { listens := [], conns := [], outcome := .returned (.notMatchAddress "unregistered:0") } ∧
    demoServing.ListenAndServe "tcp" ":9000" 5 =
      { listens := [("tcp", ":9000")], conns := [⟨"A1"⟩, ⟨"B2"⟩],
        outcome := .returned (.ext "closed") } ∧
    ((demoRegistry.Match "unregistered:0" = none →
        demoRegistry.ListenAndServe "tcp" "unregistered:0" 5 =
          { listens := [], conns := [],
            outcome := .returned (.notMatchAddress "unregistered:0") }) ∧
      ((demoServing.Match "unregistered:0").isSome = true →
        (demoServing.ListenAndServe "tcp" "unregistered:0" 5).listens =
          [("tcp", "unregistered:0")])) ∧
    ((demoRegistry.Match ":9000" = none →
        demoRegistry.ListenAndServe "tcp" ":9000" 5 =
          { listens := [], conns := [], outcome := .returned (.notMatchAddress ":9000") }) ∧
      ((demoServing.Match ":9000").isSome = true →
        (demoServing.ListenAndServe "tcp" ":9000" 5).listens = [("tcp", ":9000")])) :=
  ⟨rfl, by decide, by decide,
    listenAndServe_lookup demo demoAddrs (some demoServingConf) demoServing rfl demoRegistry
      "tcp" "unregistered:0" 5,
    listenAndServe_lookup demo demoAddrs (some demoServingConf) demoServing rfl demoRegistry
      "tcp" ":9000" 5⟩

/-! ## Credentials and raw queries per group -/

theorem group_of_calls (d : Deps) (hS : SchemeOK d) (addrs : List String) (conf : Config)
    (pre : List Call) (c : Call) (post : List Call)
    (hsplit : (loop d conf addrs Build.init).1.calls = pre ++ c :: post) :
    group (unique c.u) (pre.map Call.u ++ [c.u]) =
      ((pre ++ [c]).filter (sameGroup c)).map Call.u := by
  have hmem : ∀ x ∈ pre ++ [c], x ∈ (loop d conf addrs Build.init).1.calls := by
    intro x hx
    rw [hsplit]
    rcases List.mem_append.1 hx with hx | hx
    · exact List.mem_append_left _ hx
    · simp only [List.mem_singleton] at hx
      subst hx
      exact List.mem_append_right _ (List.mem_cons_self _ _)
  obtain ⟨a, _, hpa⟩ := run_fromParse d conf addrs c (hmem c (by simp))
  have : pre.map Call.u ++ [c.u] = (pre ++ [c]).map Call.u := by simp
  rw [this, group, List.filter_map]
  congr 1
  apply List.filter_congr
  intro x hx
  obtain ⟨b, _, hpb⟩ := run_fromParse d conf addrs x (hmem x hx)
  exact sameGroup_iff_unique d hS c x a b hpa hpb

/-- The credentials read for a group depend on the credentials of its
descriptors only. -/
theorem credsOf_congr (g₁ g₂ : List URL) (h : g₁.map URL.User = g₂.map URL.User) :
    credsOf g₁ = credsOf g₂ := by
  have hall : ∀ g : List URL, g.all (fun u => u.User.isSome) = (g.map URL.User).all Option.isSome := by
    intro g
    induction g with
    | nil => rfl
    | cons x g ih => simp only [List.all_cons, List.map_cons, ih]
  have hfm : ∀ g : List URL, g.filterMap URL.User = (g.map URL.User).filterMap id := by
    intro g; rw [List.filterMap_map]; rfl
  unfold credsOf
  rw [hall g₁, hall g₂, hfm g₁, hfm g₂, h]

theorem credsOf_none (g : List URL) (u : URL) (hu : u ∈ g) (hn : u.User = none) :
    credsOf g = [] := by
  unfold credsOf
  rw [if_neg]
  intro hall
  have := List.all_eq_true.1 hall u hu
  rw [hn] at this
  cases this

/-- C13. The credential list handed to the handler of a descriptor depends
on the descriptors of its own scheme and host only: in two descriptor lists
in which the descriptor has the same credential and is preceded by the same
credentials of descriptors of its scheme and host, its handler is handed the
same credential list, whatever descriptors of another scheme or another host
the lists hold, also on the same host. -/
theorem credentials_independent_of_other_groups (d : Deps) (hS : SchemeOK d)
    (addrs₁ addrs₂ : List String) (conf : Option Config)
    (pre₁ : List Call) (c₁ : Call) (post₁ : List Call)
    (pre₂ : List Call) (c₂ : Call) (post₂ : List Call)
    (h₁ : (NewAnyProxyRun d addrs₁ conf).1.calls = pre₁ ++ c₁ :: post₁)
    (h₂ : (NewAnyProxyRun d addrs₂ conf).1.calls = pre₂ ++ c₂ :: post₂)
    (huser : c₁.u.User = c₂.u.User)
    (hsame : (pre₁.filter (sameGroup c₁)).map (fun x => x.u.User) =
      (pre₂.filter (sameGroup c₂)).map (fun x => x.u.User)) :
    c₁.hostconf.Users = c₂.hostconf.Users := by
  rw [run_hostconf d (normalize d conf) addrs₁ pre₁ c₁ post₁ h₁,
    run_hostconf d (normalize d conf) addrs₂ pre₂ c₂ post₂ h₂]
  simp only [hostconfFor]
  rw [group_of_calls d hS addrs₁ (normalize d conf) pre₁ c₁ post₁ h₁,
    group_of_calls d hS addrs₂ (normalize d conf) pre₂ c₂ post₂ h₂]
  congr 1
  apply credsOf_congr
  simp only [List.filter_append, List.map_append, List.map_map]
  have e₁ : [c₁].filter (sameGroup c₁) = [c₁] := by simp [sameGroup_self]
  have e₂ : [c₂].filter (sameGroup c₂) = [c₂] := by simp [sameGroup_self]
  rw [e₁, e₂]
  simp only [List.map_cons, List.map_nil, Function.comp]
  rw [huser]
  congr 1

theorem credentials_independent_of_other_groups_witness :
    SchemeOK demo ∧
    (NewAnyProxyRun demo demoCredentials (some demoConf)).1.calls =
      [demoCallWith "http" (some demoU1) "x=1" [demoU1],
        demoCallWith "socks5" (some demoU3) "" [demoU3]] ++
      demoCallWith "http" (some demoU2) "y=2" [demoU1, demoU2] ::
        [demoCallWith "http" (some demoU1) "x=1" [demoU1, demoU2, demoU1]] ∧
    (NewAnyProxyRun demo demoCredentialsMixed (some demoConf)).1.calls =
      [demoCallWith "ftp" none "" [],
        demoCallWith "http" (some demoU1) "x=1" [demoU1],
        demoCallWith "socks5" none "" [],
        demoCallWith "socks5" (some demoU3) "" []] ++
      demoCallWith "http" (some demoU2) "y=2" [demoU1, demoU2] :: [] ∧
    ([demoCallWith "http" (some demoU1) "x=1" [demoU1],
        demoCallWith "socks5" (some demoU3) "" [demoU3]].filter
      (sameGroup (demoCallWith "http" (some demoU2) "y=2" [demoU1, demoU2]))).map
        (fun x => x.u.User) =
      ([demoCallWith "ftp" none "" [],
        demoCallWith "http" (some demoU1) "x=1" [demoU1],
        demoCallWith "socks5" none "" [],
        demoCallWith "socks5" (some demoU3) "" []].filter
      (sameGroup (demoCallWith "http" (some demoU2) "y=2" [demoU1, demoU2]))).map
        (fun x => x.u.User) ∧
    (demoCallWith "http" (some demoU2) "y=2" [demoU1, demoU2]).hostconf.Users =
      (demoCallWith "http" (some demoU2) "y=2" [demoU1, demoU2]).hostconf.Users :=
  ⟨schemeOK_demo, rfl, rfl, by decide,
    credentials_independent_of_other_groups demo schemeOK_demo demoCredentials
      demoCredentialsMixed (some demoConf)
      [demoCallWith "http" (some demoU1) "x=1" [demoU1],
        demoCallWith "socks5" (some demoU3) "" [demoU3]]
      (demoCallWith "http" (some demoU2) "y=2" [demoU1, demoU2])
      [demoCallWith "http" (some demoU1) "x=1" [demoU1, demoU2, demoU1]]
      [demoCallWith "ftp" none "" [],
        demoCallWith "http" (some demoU1) "x=1" [demoU1],
        demoCallWith "socks5" none "" [],
        demoCallWith "socks5" (some demoU3) "" []]
      (demoCallWith "http" (some demoU2) "y=2" [demoU1, demoU2]) [] rfl rfl rfl (by decide)⟩

/-- C14. The raw-query list handed to the handler of a descriptor is the
raw-query list of the base configuration followed by the raw query of that
one descriptor; its length is the length of the base list plus one, wherever
the descriptor stands in the list. -/
theorem raw_queries_base_then_own (d : Deps) (addrs : List String) (conf : Option Config)
    (pre : List Call) (c : Call) (post : List Call)
    (hsplit : (NewAnyProxyRun d addrs conf).1.calls = pre ++ c :: post) :
    c.hostconf.RawQueries = (normalize d conf).RawQueries ++ [c.u.RawQuery] ∧
    c.hostconf.RawQueries.length = (normalize d conf).RawQueries.length + 1 := by
  rw [run_hostconf d (normalize d conf) addrs pre c post hsplit]
  simp [hostconfFor]

theorem raw_queries_base_then_own_witness :
    (NewAnyProxyRun demo demoBareBetween (some demoConf)).1.calls =
      [demoCallWith "http" (some demoU1) "x=1" [demoU1], demoCallWith "http" none "" []] ++
      demoCallWith "http" (some demoU2) "y=2" [] :: [] ∧
    (normalize demo (some demoConf)).RawQueries = ["base=1"] ∧
    (demoCallWith "http" none "" []).hostconf.RawQueries = ["base=1", ""] ∧
    ((demoCallWith "http" (some demoU2) "y=2" []).hostconf.RawQueries =
        (normalize demo (some demoConf)).RawQueries ++
          [(demoCallWith "http" (some demoU2) "y=2" []).u.RawQuery] ∧
      (demoCallWith "http" (some demoU2) "y=2" []).hostconf.RawQueries.length =
        (normalize demo (some demoConf)).RawQueries.length + 1) :=
  ⟨rfl, rfl, rfl,
    raw_queries_base_then_own demo demoBareBetween (some demoConf)
      [demoCallWith "http" (some demoU1) "x=1" [demoU1], demoCallWith "http" none "" []]
      (demoCallWith "http" (some demoU2) "y=2" []) [] rfl⟩

/-- C17. Once a descriptor without credential has been processed for a
scheme and host, the handler of that descriptor and of every later
descriptor of the same scheme and host, with or without a credential of its
own, is handed exactly the default credentials of the base configuration:
the credentials accumulated for the group are gone and none is added. -/
theorem no_credential_marker_sticky (d : Deps) (hS : SchemeOK d) (addrs : List String)
    (conf : Option Config) (pre : List Call) (c : Call) (post : List Call)
    (hsplit : (NewAnyProxyRun d addrs conf).1.calls = pre ++ c :: post)
    (x : Call) (hx : x ∈ pre ++ [c])
    (hscheme : x.u.Scheme = c.u.Scheme) (hhost : x.u.Host = c.u.Host)
    (hnone : x.u.User = none) :
    c.hostconf.Users = (normalize d conf).Users := by
  rw [run_hostconf d (normalize d conf) addrs pre c post hsplit]
  simp only [hostconfFor]
  rw [group_of_calls d hS addrs (normalize d conf) pre c post hsplit]
  have hmem : x.u ∈ ((pre ++ [c]).filter (sameGroup c)).map Call.u := by
    rw [List.mem_map]
    refine ⟨x, ?_, rfl⟩
    rw [List.mem_filter]
    exact ⟨hx, by simp [sameGroup, hscheme, hhost]⟩
  rw [credsOf_none _ x.u hmem hnone]
  rfl

theorem no_credential_marker_sticky_witness :
    SchemeOK demo ∧
    (NewAnyProxyRun demo demoBareBetween (some demoConf)).1.calls =
      [demoCallWith "http" (some demoU1) "x=1" [demoU1], demoCallWith "http" none "" []] ++
      demoCallWith "http" (some demoU2) "y=2" [] :: [] ∧
    demoCallWith "http" none "" [] ∈
      [demoCallWith "http" (some demoU1) "x=1" [demoU1], demoCallWith "http" none "" []] ++
        [demoCallWith "http" (some demoU2) "y=2" []] ∧
    (demoCallWith "http" (some demoU1) "x=1" [demoU1]).hostconf.Users =
      [demoU1, ⟨"root", none⟩] ∧
    (demoCallWith "http" (some demoU2) "y=2" []).u.User = some demoU2 ∧
    (normalize demo (some demoConf)).Users = [⟨"root", none⟩] ∧
    (demoCallWith "http" (some demoU2) "y=2" []).hostconf.Users =
      (normalize demo (some demoConf)).Users :=
  ⟨schemeOK_demo, rfl, by simp, rfl, rfl, rfl,
    no_credential_marker_sticky demo schemeOK_demo demoBareBetween (some demoConf)
      [demoCallWith "http" (some demoU1) "x=1" [demoU1], demoCallWith "http" none "" []]
      (demoCallWith "http" (some demoU2) "y=2" []) [] rfl
      (demoCallWith "http" none "" []) (by simp) rfl rfl rfl⟩

/-! ## The accept loop -/

/-- The accept loop on a listener whose accepts yield the connections `cs`
and fail then: started at call number `i` with `fuel` calls to go. -/
theorem acceptLoop_script (listener : Listener) (cs : List Conn) (e : Error)
    (hconn : ∀ i (hi : i < cs.length), listener.Accept i = .ok (cs.get ⟨i, hi⟩))
    (herr : listener.Accept cs.length = .error e) (fuel i : Nat) (acc : List Conn)
    (hi : i ≤ cs.length) :
    acceptLoop listener fuel i acc =
      if cs.length - i < fuel then (acc ++ cs.drop i, .returned e)
      else (acc ++ (cs.drop i).take fuel, .running) := by
  induction fuel generalizing i acc with
  | zero => simp [acceptLoop]
  | succ fuel ih =>
    rcases Nat.lt_or_eq_of_le hi with hlt | heq
    · have hd : cs.drop i = cs.get ⟨i, hlt⟩ :: cs.drop (i + 1) :=
        List.drop_eq_getElem_cons hlt
      have hstep : acceptLoop listener (fuel + 1) i acc =
          acceptLoop listener fuel (i + 1) (acc ++ [cs.get ⟨i, hlt⟩]) := by
        rw [acceptLoop, hconn i hlt]
      rw [hd, hstep, ih (i + 1) (acc ++ [cs.get ⟨i, hlt⟩]) hlt]
      have hiff : cs.length - (i + 1) < fuel ↔ cs.length - i < fuel + 1 := by omega
      by_cases hf : cs.length - (i + 1) < fuel
      · rw [if_pos hf, if_pos (hiff.1 hf)]
        simp
      · have hf' : ¬ cs.length - i < fuel + 1 := fun h => hf (hiff.2 h)
        rw [if_neg hf, if_neg hf', List.take_succ_cons, List.append_assoc]
        rfl
    · subst heq
      rw [acceptLoop, herr]
      simp

/-- C15. On a listener whose successive accepts yield the connections `cs`
and fail then with `e`, `Host.Serve` (and the same loop started by `Run`)
hands over exactly `cs`, each connection once and in order, and returns `e`
as soon as it made `cs.length + 1` calls of `Accept`; the result stays so
however much longer the loop is observed and does not depend on what a
later call of `Accept` would yield. Before that it is accepting and has
handed over the first connections. -/
theorem serve_until_accept_fails (h : Host) (listener : Listener) (cs : List Conn) (e : Error)
    (hconn : ∀ i (hi : i < cs.length), listener.Accept i = .ok (cs.get ⟨i, hi⟩))
    (herr : listener.Accept cs.length = .error e) (fuel : Nat) :
    (cs.length < fuel →
      h.Serve listener fuel = { listens := [], conns := cs, outcome := .returned e } ∧
      acceptLoop listener fuel 0 [] = (cs, .returned e)) ∧
    (fuel ≤ cs.length →
      h.Serve listener fuel = { listens := [], conns := cs.take fuel, outcome := .running } ∧
      acceptLoop listener fuel 0 [] = (cs.take fuel, .running)) := by
  have hs := acceptLoop_script listener cs e hconn herr fuel 0 [] (Nat.zero_le _)
  simp only [Nat.sub_zero, List.drop_zero, List.nil_append] at hs
  constructor
  · intro hlt
    simp only [Host.Serve, hs, hlt, if_true, and_self]
  · intro hle
    have : ¬ cs.length < fuel := by omega
    simp only [Host.Serve, hs, this, if_false, and_self]

theorem serve_until_accept_fails_witness :
    (∀ i (hi : i < [(⟨"A1"⟩ : Conn), ⟨"B2"⟩].length),
      demoListener.Accept i = .ok ([(⟨"A1"⟩ : Conn), ⟨"B2"⟩].get ⟨i, hi⟩)) ∧
    demoListener.Accept [(⟨"A1"⟩ : Conn), ⟨"B2"⟩].length = .error (.ext "closed") ∧
    demoHost9000.Serve demoListener 3 =
      { listens := [], conns := [⟨"A1"⟩, ⟨"B2"⟩], outcome := .returned (.ext "closed") } ∧
    demoHost9000.Serve demoListener 1 =
      { listens := [], conns := [⟨"A1"⟩], outcome := .running } ∧
    (([(⟨"A1"⟩ : Conn), ⟨"B2"⟩].length < 7 →
        demoHost9000.Serve demoListener 7 =
          { listens := [], conns := [⟨"A1"⟩, ⟨"B2"⟩], outcome := .returned (.ext "closed") } ∧
        acceptLoop demoListener 7 0 [] = ([⟨"A1"⟩, ⟨"B2"⟩], .returned (.ext "closed"))) ∧
      (7 ≤ [(⟨"A1"⟩ : Conn), ⟨"B2"⟩].length →
        demoHost9000.Serve demoListener 7 =
          { listens := [], conns := [(⟨"A1"⟩ : Conn), ⟨"B2"⟩].take 7, outcome := .running } ∧
        acceptLoop demoListener 7 0 [] = ([(⟨"A1"⟩ : Conn), ⟨"B2"⟩].take 7, .running))) :=
  ⟨fun i hi => match i, hi with
      | 0, _ => rfl
      | 1, _ => rfl,
    rfl, by decide, by decide,
    serve_until_accept_fails demoHost9000 demoListener [⟨"A1"⟩, ⟨"B2"⟩] (.ext "closed")
      (fun i hi => match i, hi with
        | 0, _ => rfl
        | 1, _ => rfl)
      rfl 7⟩

/-! ## The error of a pattern registration -/

theorem iteration_handlePrefix_irrelevant (d : Deps)
    (f : CMux → ServeConn → List String → Option Error) (conf : Config) (st : Build)
    (addr : String) :
    iteration { d with HandlePrefix := f } conf st addr = iteration d conf st addr := rfl

theorem loop_handlePrefix_irrelevant (d : Deps)
    (f : CMux → ServeConn → List String → Option Error) (conf : Config)
    (addrs : List String) (st : Build) :
    loop { d with HandlePrefix := f } conf addrs st = loop d conf addrs st := by
  induction addrs generalizing st with
  | nil => rfl
  | cons a rest ih =>
    simp only [loop, iteration_handlePrefix_irrelevant, ih]

/-- C16. When the factory returns a pattern slice that is not nil and the
pattern registration reports an error, the iteration ends without error: the
Host is stored under the host of the descriptor, with the registration in
its history and the upstream URLs of the handler at the end of its list, and
the loop goes on with the remaining descriptors. What `NewAnyProxy` returns
does not depend on the results of pattern registrations at all. -/
theorem pattern_registration_error_discarded (d : Deps) (conf : Config) (st : Build)
    (addr : String) (rest : List String) (u : URL) (s : ServeConn) (ps : List String)
    (e : Error) (hp : d.Parse addr = .ok u)
    (hf : d.NewServeConn u.Scheme u.Host (hostconfOf conf (recordUser st.users u) u)
      = .ok (s, some ps))
    (he : d.HandlePrefix (resolveHost conf st.proxies u.Host).cmux s ps = some e) :
    (iteration d conf st addr).2 = none ∧
    (∃ mux, (iteration d conf st addr).1.proxies.get? u.Host = some mux ∧
      mux.cmux.calls =
        (resolveHost conf st.proxies u.Host).cmux.calls ++ [Registration.handlePrefix s ps] ∧
      mux.ProxyURLs = (resolveHost conf st.proxies u.Host).proxies ++ upstreamURLs s) ∧
    loop d conf (addr :: rest) st = loop d conf rest (iteration d conf st addr).1 ∧
    (∀ f addrs base, NewAnyProxy { d with HandlePrefix := f } addrs base =
      NewAnyProxy d addrs base) := by
  have hit : iteration d conf st addr =
      ({ afterCall conf st addr u with
          proxies := st.proxies.set u.Host
            (registered (resolveHost conf st.proxies u.Host) s (some ps)) }, none) := by
    have _ := he
    unfold iteration
    simp only [hp, hf]
    rfl
  refine ⟨by rw [hit], ?_, ?_, ?_⟩
  · refine ⟨registered (resolveHost conf st.proxies u.Host) s (some ps), ?_, rfl, rfl⟩
    rw [hit]
    simp only [GoMap.get?_set, if_true]
  · simp only [loop, hit]
  · intro f addrs base
    have hn : normalize { d with HandlePrefix := f } base = normalize d base := rfl
    unfold NewAnyProxy NewAnyProxyRun
    rw [hn, loop_handlePrefix_irrelevant]

theorem pattern_registration_error_discarded_witness :
    demoRefusing.Parse "alpha://:9000" = .ok ⟨"alpha", ":9000", none, ""⟩ ∧
    demoRefusing.HandlePrefix
        (resolveHost (normalize demoRefusing none) Build.init.proxies ":9000").cmux
        demoAlpha ["A"] = some (.ext "pattern conflict") ∧
    (NewAnyProxy demoRefusing demoAddrs none).2 = none ∧
    (NewAnyProxy demoRefusing demoAddrs none).1.isSome = true ∧
    ((NewAnyProxy demoRefusing demoAddrs none).1.bind (fun p => p.Match ":9000")).map
        (fun mux => (mux.cmux.calls, mux.ProxyURLs)) =
      some ([.handlePrefix demoAlpha ["A"], .notFound (demoPlain "beta")],
        ["up://1", "up://2", "up://1"]) ∧
    ((iteration demoRefusing (normalize demoRefusing none) Build.init "alpha://:9000").2 = none ∧
      (∃ mux, (iteration demoRefusing (normalize demoRefusing none) Build.init
            "alpha://:9000").1.proxies.get? (URL.mk "alpha" ":9000" none "").Host = some mux ∧
        mux.cmux.calls =
          (resolveHost (normalize demoRefusing none) Build.init.proxies
            (URL.mk "alpha" ":9000" none "").Host).cmux.calls ++
            [Registration.handlePrefix demoAlpha ["A"]] ∧
        mux.ProxyURLs =
          (resolveHost (normalize demoRefusing none) Build.init.proxies
            (URL.mk "alpha" ":9000" none "").Host).proxies ++ upstreamURLs demoAlpha) ∧
      loop demoRefusing (normalize demoRefusing none)
          ("alpha://:9000" :: ["beta://:9000", "gamma://:9001"]) Build.init =
        loop demoRefusing (normalize demoRefusing none) ["beta://:9000", "gamma://:9001"]
          (iteration demoRefusing (normalize demoRefusing none) Build.init "alpha://:9000").1 ∧
      (∀ f addrs base, NewAnyProxy { demoRefusing with HandlePrefix := f } addrs base =
        NewAnyProxy demoRefusing addrs base)) :=
  ⟨rfl, rfl, by decide, by decide, by decide,
    pattern_registration_error_discarded demoRefusing (normalize demoRefusing none) Build.init
      "alpha://:9000" ["beta://:9000", "gamma://:9001"] ⟨"alpha", ":9000", none, ""⟩
      demoAlpha ["A"] (.ext "pattern conflict") rfl rfl rfl⟩

/-! ## Opening the listeners in `Run` -/

theorem hosts_registered (a : AnyProxy) (x : String) (hx : x ∈ a.Hosts) :
    ∃ host, a.Match x = some host := by
  have hk : x ∈ a.proxies.keys := (sortStrings_perm a.proxies.keys).mem_iff.1 hx
  have := (assocGet_isSome x a.proxies.entries).2 hk
  exact Option.isSome_iff_exists.1 this

theorem loopFor_ok (lc : ListenConfig) (fuel : Nat) (x : String) (l : Listener)
    (h : lc.Listen "tcp" x = .ok l) : loopFor lc fuel x = some (acceptLoop l fuel 0 []) := by
  simp [loopFor, h]

theorem runFrom_all (a : AnyProxy) (lc : ListenConfig) (hlc : a.conf.ListenConfig = some lc)
    (fuel : Nat) (hs : List String) (listens : List (String × String))
    (loops : List (List Conn × Outcome))
    (hreg : ∀ x ∈ hs, ∃ host, a.Match x = some host)
    (hopen : ∀ x ∈ hs, ∃ l, lc.Listen "tcp" x = .ok l) :
    a.runFrom fuel hs listens loops =
      { listens := listens ++ hs.map (fun x => ("tcp", x))
        loops := loops ++ hs.filterMap (loopFor lc fuel)
        stop := .waiting } := by
  induction hs generalizing listens loops with
  | nil => simp [AnyProxy.runFrom]
  | cons x hs ih =>
    obtain ⟨host, hm⟩ := hreg x (List.mem_cons_self _ _)
    obtain ⟨l, hl⟩ := hopen x (List.mem_cons_self _ _)
    rw [AnyProxy.runFrom]
    simp only [hm, hlc, hl]
    rw [ih _ _ (fun y hy => hreg y (List.mem_cons_of_mem _ hy))
      (fun y hy => hopen y (List.mem_cons_of_mem _ hy))]
    simp [loopFor_ok lc fuel x l hl]

theorem runFrom_fail (a : AnyProxy) (lc : ListenConfig) (hlc : a.conf.ListenConfig = some lc)
    (fuel : Nat) (pre : List String) (x : String) (post : List String) (e : Error)
    (listens : List (String × String)) (loops : List (List Conn × Outcome))
    (hreg : ∀ y ∈ pre ++ [x], ∃ host, a.Match y = some host)
    (hopen : ∀ y ∈ pre, ∃ l, lc.Listen "tcp" y = .ok l)
    (hfail : lc.Listen "tcp" x = .error e) :
    a.runFrom fuel (pre ++ x :: post) listens loops =
      { listens := listens ++ (pre ++ [x]).map (fun y => ("tcp", y))
        loops := loops ++ pre.filterMap (loopFor lc fuel)
        stop := .returned e } := by
  induction pre generalizing listens loops with
  | nil =>
    obtain ⟨host, hm⟩ := hreg x (by simp)
    rw [List.nil_append, AnyProxy.runFrom]
    simp only [hm, hlc, hfail]
    simp
  | cons y pre ih =>
    obtain ⟨host, hm⟩ := hreg y (by simp)
    obtain ⟨l, hl⟩ := hopen y (List.mem_cons_self _ _)
    rw [List.cons_append, AnyProxy.runFrom]
    simp only [hm, hlc, hl]
    rw [ih _ _ (fun z hz => hreg z (by
        rw [List.cons_append]; exact List.mem_cons_of_mem _ hz))
      (fun z hz => hopen z (List.mem_cons_of_mem _ hz))]
    simp [loopFor_ok lc fuel y l hl]

theorem runFrom_prefix (a : AnyProxy) (fuel : Nat) (hs : List String)
    (listens : List (String × String)) (loops : List (List Conn × Outcome)) :
    ∃ k, (a.runFrom fuel hs listens loops).listens =
      listens ++ (hs.take k).map (fun x => ("tcp", x)) := by
  induction hs generalizing listens loops with
  | nil => exact ⟨0, by simp [AnyProxy.runFrom]⟩
  | cons x hs ih =>
    rw [AnyProxy.runFrom]
    rcases a.Match x with _ | host
    · exact ⟨0, by simp⟩
    · rcases a.conf.ListenConfig with _ | lc
      · exact ⟨0, by simp⟩
      · rcases hL : lc.Listen "tcp" x with e | l
        · exact ⟨1, by simp [hL]⟩
        · obtain ⟨k, hk⟩ := ih (listens ++ [("tcp", x)]) (loops ++ [acceptLoop l fuel 0 []])
          exact ⟨k + 1, by simp only [hL, hk]; simp⟩

/-- C11. `Run` opens listeners along `Hosts()`, in ascending order and one
per address: the `Listen` calls it makes are those for an initial part of
`Hosts()`, all on network `tcp`. If every open succeeds, the calls are those
for all of `Hosts()` in order and `Run` reaches `group.Wait()` with one
accept loop per address. If the open for an address is the first to fail,
`Run` returns the error of that open; it made the calls for the addresses
before it and for this one and no call for an address behind it, and
started accept loops for the addresses before it only. -/
theorem run_opens_in_sorted_order (a : AnyProxy) (lc : ListenConfig)
    (hlc : a.conf.ListenConfig = some lc) (fuel : Nat) :
    (∃ k, (a.Run fuel).listens = (a.Hosts.take k).map (fun x => ("tcp", x))) ∧
    ((∀ x ∈ a.Hosts, ∃ l, lc.Listen "tcp" x = .ok l) →
      (a.Run fuel).listens = a.Hosts.map (fun x => ("tcp", x)) ∧
      (a.Run fuel).stop = .waiting ∧
      (a.Run fuel).loops = a.Hosts.filterMap (loopFor lc fuel) ∧
      (a.Run fuel).loops.length = a.Hosts.length) ∧
    (∀ pre x post e, a.Hosts = pre ++ x :: post →
      (∀ y ∈ pre, ∃ l, lc.Listen "tcp" y = .ok l) → lc.Listen "tcp" x = .error e →
        (a.Run fuel).stop = .returned e ∧
        (a.Run fuel).listens = (pre ++ [x]).map (fun y => ("tcp", y)) ∧
        (a.Run fuel).loops = pre.filterMap (loopFor lc fuel) ∧
        (a.Run fuel).loops.length = pre.length) := by
  have hlen : ∀ l : List String, (∀ y ∈ l, ∃ ls, lc.Listen "tcp" y = .ok ls) →
      (l.filterMap (loopFor lc fuel)).length = l.length := by
    intro l hl
    induction l with
    | nil => rfl
    | cons y l ih =>
      obtain ⟨ls, hy⟩ := hl y (List.mem_cons_self _ _)
      simp only [List.filterMap_cons, loopFor_ok lc fuel y ls hy, List.length_cons,
        ih (fun z hz => hl z (List.mem_cons_of_mem _ hz))]
  refine ⟨?_, ?_, ?_⟩
  · obtain ⟨k, hk⟩ := runFrom_prefix a fuel a.Hosts [] []
    exact ⟨k, by rw [AnyProxy.Run, hk]; simp⟩
  · intro hopen
    have hrun := runFrom_all a lc hlc fuel a.Hosts [] []
      (fun x hx => hosts_registered a x hx) hopen
    rw [AnyProxy.Run, hrun]
    simp only [List.nil_append, true_and]
    exact hlen a.Hosts hopen
  · intro pre x post e hsplit hopen hfail
    have hrun := runFrom_fail a lc hlc fuel pre x post e [] []
      (fun y hy => hosts_registered a y (by
        rw [hsplit]
        rcases List.mem_append.1 hy with hy | hy
        · exact List.mem_append_left _ hy
        · simp only [List.mem_singleton] at hy
          subst hy
          exact List.mem_append_right _ (List.mem_cons_self _ _))) hopen hfail
    rw [AnyProxy.Run, hsplit, hrun]
    simp only [List.nil_append, true_and]
    exact hlen pre hopen

theorem run_opens_in_sorted_order_witness :
    demoThreeFlaky.conf.ListenConfig = some demoFlaky ∧
    demoThreeFlaky.Hosts = [":9000"] ++ ":9001" :: [":9002"] ∧
    demoFlaky.Listen "tcp" ":9001" = .error (.ext "address already in use") ∧
    demoThreeFlaky.Run 5 =
      { listens := [("tcp", ":9000"), ("tcp", ":9001")]
        loops := [([⟨"A1"⟩, ⟨"B2"⟩], .returned (.ext "closed"))]
        stop := .returned (.ext "address already in use") } ∧
    demoServing.Run 5 =
      { listens := [("tcp", ":9000"), ("tcp", ":9001")]
        loops := [([⟨"A1"⟩, ⟨"B2"⟩], .returned (.ext "closed")),
          ([⟨"A1"⟩, ⟨"B2"⟩], .returned (.ext "closed"))]
        stop := .waiting } ∧
    ((demoThreeFlaky.Run 5).stop = .returned (.ext "address already in use") ∧
      (demoThreeFlaky.Run 5).listens = ([":9000"] ++ [":9001"]).map (fun y => ("tcp", y)) ∧
      (demoThreeFlaky.Run 5).loops = [":9000"].filterMap (loopFor demoFlaky 5) ∧
      (demoThreeFlaky.Run 5).loops.length = [":9000"].length) :=
  ⟨rfl, by decide, rfl, by decide, by decide,
    (run_opens_in_sorted_order demoThreeFlaky demoFlaky rfl 5).2.2 [":9000"] ":9001" [":9002"]
      (.ext "address already in use") (by decide)
      (fun y hy => ⟨demoListener, by
        simp only [List.mem_singleton] at hy
        subst hy
        rfl⟩) rfl⟩

/-! ## Dispatch of connections -/

theorem firstMatch_some (conn : Conn) (l : List Registration)
    (h : ∃ s ps p, Registration.handlePrefix s ps ∈ l ∧ p ∈ ps ∧ hasPrefix p conn = true) :
    ∃ s ps p, firstMatch conn l = some s ∧ Registration.handlePrefix s ps ∈ l ∧ p ∈ ps ∧
      hasPrefix p conn = true := by
  induction l with
  | nil => obtain ⟨s, ps, p, hm, _⟩ := h; cases hm
  | cons r rest ih =>
    have hrest : (∃ s ps p, Registration.handlePrefix s ps ∈ rest ∧ p ∈ ps ∧
        hasPrefix p conn = true) →
        ∃ s ps p, firstMatch conn rest = some s ∧ Registration.handlePrefix s ps ∈ r :: rest ∧
          p ∈ ps ∧ hasPrefix p conn = true := by
      intro h'
      obtain ⟨s, ps, p, h1, h2, h3, h4⟩ := ih h'
      exact ⟨s, ps, p, h1, List.mem_cons_of_mem _ h2, h3, h4⟩
    cases r with
    | notFound s0 =>
      simp only [firstMatch]
      apply hrest
      obtain ⟨s, ps, p, hm, hp, hpre⟩ := h
      rcases List.mem_cons.1 hm with hm | hm
      · cases hm
      · exact ⟨s, ps, p, hm, hp, hpre⟩
    | handlePrefix s0 ps0 =>
      simp only [firstMatch]
      by_cases hany : ps0.any (fun p => hasPrefix p conn) = true
      · rw [if_pos hany]
        obtain ⟨p, hp, hpre⟩ := List.any_eq_true.1 hany
        exact ⟨s0, ps0, p, rfl, List.mem_cons_self _ _, hp, hpre⟩
      · rw [if_neg hany]
        apply hrest
        obtain ⟨s, ps, p, hm, hp, hpre⟩ := h
        rcases List.mem_cons.1 hm with hm | hm
        · simp only [Registration.handlePrefix.injEq] at hm
          obtain ⟨_, hps⟩ := hm
          subst hps
          exact absurd (List.any_eq_true.2 ⟨p, hp, hpre⟩) hany
        · exact ⟨s, ps, p, hm, hp, hpre⟩

theorem firstMatch_none (conn : Conn) (l : List Registration)
    (h : ∀ s ps p, Registration.handlePrefix s ps ∈ l → p ∈ ps → hasPrefix p conn = false) :
    firstMatch conn l = none := by
  induction l with
  | nil => rfl
  | cons r rest ih =>
    have ih' := ih (fun s ps p hm => h s ps p (List.mem_cons_of_mem _ hm))
    cases r with
    | notFound s0 => simpa only [firstMatch] using ih'
    | handlePrefix s0 ps0 =>
      simp only [firstMatch]
      have hany : ¬ ps0.any (fun p => hasPrefix p conn) = true := by
        intro hany
        obtain ⟨p, hp, hpre⟩ := List.any_eq_true.1 hany
        rw [h s0 ps0 p (List.mem_cons_self _ _) hp] at hpre
        cases hpre
      rw [if_neg hany]
      exact ih'

theorem fallbackOf_some (l : List Registration) (h : ∃ s, Registration.notFound s ∈ l) :
    ∃ s, fallbackOf l = some s ∧ Registration.notFound s ∈ l := by
  induction l with
  | nil => obtain ⟨s, hm⟩ := h; cases hm
  | cons r rest ih =>
    cases r with
    | notFound s0 => exact ⟨s0, rfl, List.mem_cons_self _ _⟩
    | handlePrefix s0 ps0 =>
      obtain ⟨s, hm⟩ := h
      rcases List.mem_cons.1 hm with hm | hm
      · cases hm
      · obtain ⟨s', h1, h2⟩ := ih ⟨s, hm⟩
        exact ⟨s', h1, List.mem_cons_of_mem _ h2⟩

theorem prefixFirst_demoDispatch : PrefixFirst demoDispatch := by
  intro m conn
  constructor
  · intro h
    obtain ⟨s, ps, p, h1, h2, h3, h4⟩ := firstMatch_some conn m.calls h
    exact ⟨s, ps, p, by simp [demoDispatch, h1], h2, h3, h4⟩
  · intro hnone hfb
    obtain ⟨s, h1, h2⟩ := fallbackOf_some m.calls hfb
    exact ⟨s, by simp [demoDispatch, firstMatch_none conn m.calls hnone, h1], h2⟩

theorem notFound_fresh (d : Deps) (hNF : NotFoundOnce d) (m : CMux) (s : ServeConn)
    (h : m.calls.any Registration.isNotFound = false) : d.NotFound m s = none := by
  have := hNF m s
  rw [h] at this
  cases hn : d.NotFound m s with
  | none => rfl
  | some e => rw [hn] at this; cases this

theorem iteration_done (d : Deps) (conf : Config) (st : Build) (addr : String) (u : URL)
    (s : ServeConn) (patterns : Option (List String)) (hp : d.Parse addr = .ok u)
    (hf : d.NewServeConn u.Scheme u.Host (hostconfOf conf (recordUser st.users u) u)
      = .ok (s, patterns))
    (hn : patterns = none → d.NotFound (resolveHost conf st.proxies u.Host).cmux s = none) :
    iteration d conf st addr =
      ({ afterCall conf st addr u with
          proxies := st.proxies.set u.Host
            (registered (resolveHost conf st.proxies u.Host) s patterns) }, none) := by
  unfold iteration
  simp only [hp, hf]
  cases patterns with
  | none =>
    have := hn rfl
    simp only [resolveHost] at this ⊢
    simp only [this]
    rfl
  | some ps => rfl

/-- The Host that holds `alpha` under the prefix `A` and `beta` as fallback. -/
theorem dispatch_alpha_beta (dispatch : Dispatch) (hD : PrefixFirst dispatch) (mux : Host)
    (sA sB : ServeConn)
    (hcalls : mux.cmux.calls = [Registration.handlePrefix sA ["A"], Registration.notFound sB])
    (conn : Conn) :
    (hasPrefix "A" conn = true → mux.ServeConn dispatch conn = some sA) ∧
    (hasPrefix "A" conn = false → mux.ServeConn dispatch conn = some sB) := by
  obtain ⟨hhit, hmiss⟩ := hD mux.cmux conn
  rw [hcalls] at hhit hmiss
  constructor
  · intro hpre
    obtain ⟨s, ps, p, h1, h2, _, _⟩ := hhit ⟨sA, ["A"], "A", by simp, by simp, hpre⟩
    simp only [List.mem_cons, Registration.handlePrefix.injEq, List.mem_singleton,
      List.not_mem_nil, or_false] at h2
    rcases h2 with ⟨hs, _⟩ | h2
    · rw [← hs]; exact h1
    · cases h2
  · intro hpre
    obtain ⟨s, h1, h2⟩ := hmiss (by
        intro s ps p hm hp
        simp only [List.mem_cons, Registration.handlePrefix.injEq, List.mem_singleton,
          List.not_mem_nil, or_false] at hm
        rcases hm with ⟨_, hps⟩ | hm
        · subst hps
          simp only [List.mem_singleton] at hp
          subst hp
          exact hpre
        · cases hm) ⟨sB, by simp⟩
    simp only [List.mem_cons, List.mem_singleton, Registration.notFound.injEq,
      List.not_mem_nil, or_false] at h2
    rcases h2 with h2 | h2
    · cases h2
    · rw [← h2]; exact h1

/-- The Host that holds `gamma` as fallback and nothing else. -/
theorem dispatch_gamma (dispatch : Dispatch) (hD : PrefixFirst dispatch) (mux : Host)
    (sG : ServeConn) (hcalls : mux.cmux.calls = [Registration.notFound sG]) (conn : Conn) :
    mux.ServeConn dispatch conn = some sG := by
  obtain ⟨_, hmiss⟩ := hD mux.cmux conn
  rw [hcalls] at hmiss
  obtain ⟨s, h1, h2⟩ := hmiss (by
      intro s ps p hm
      simp only [List.mem_singleton] at hm
      cases hm) ⟨sG, by simp⟩
  simp only [List.mem_singleton, Registration.notFound.injEq] at h2
  rw [← h2]; exact h1

/-- C12. With a dispatcher in which a matching pattern has priority over
the fallback: from `alpha://:9000` and `beta://:9000`, where the factory
gives `alpha` the pattern `A` and `beta` the nil pattern slice and the
dispatcher that holds `alpha` accepts `beta` as its fallback, `NewAnyProxy`
builds a registry with the single address `:9000`, whose Host holds `alpha`
under the prefix `A` and `beta` as fallback, so that `ServeConn` hands a
connection starting with `A` to `alpha` and every other connection to
`beta`; from `gamma://:9001`, where the factory gives `gamma` the nil
pattern slice and the fresh dispatcher accepts it as fallback, it builds a
registry whose Host `:9001` hands every connection to `gamma`. Nothing else
is asked of the fallback registration: it may accept or refuse any other
call. -/
theorem alpha_beta_gamma_dispatch (d : Deps) (dispatch : Dispatch) (hD : PrefixFirst dispatch)
    (conf : Option Config) (sA sB sG : ServeConn)
    (hpA : d.Parse "alpha://:9000" = .ok ⟨"alpha", ":9000", none, ""⟩)
    (hpB : d.Parse "beta://:9000" = .ok ⟨"beta", ":9000", none, ""⟩)
    (hpG : d.Parse "gamma://:9001" = .ok ⟨"gamma", ":9001", none, ""⟩)
    (hfA : ∀ c, d.NewServeConn "alpha" ":9000" c = .ok (sA, some ["A"]))
    (hfB : ∀ c, d.NewServeConn "beta" ":9000" c = .ok (sB, none))
    (hfG : ∀ c, d.NewServeConn "gamma" ":9001" c = .ok (sG, none))
    (hnB : d.NotFound ⟨[Registration.handlePrefix sA ["A"]]⟩ sB = none)
    (hnG : d.NotFound ⟨[]⟩ sG = none) :
    (∃ p mux, NewAnyProxy d ["alpha://:9000", "beta://:9000"] conf = (some p, none) ∧
      p.Hosts = [":9000"] ∧ p.Match ":9000" = some mux ∧
      mux.cmux.calls = [Registration.handlePrefix sA ["A"], Registration.notFound sB] ∧
      ∀ conn, (hasPrefix "A" conn = true → mux.ServeConn dispatch conn = some sA) ∧
        (hasPrefix "A" conn = false → mux.ServeConn dispatch conn = some sB)) ∧
    (∃ p mux, NewAnyProxy d ["gamma://:9001"] conf = (some p, none) ∧
      p.Hosts = [":9001"] ∧ p.Match ":9001" = some mux ∧
      mux.cmux.calls = [Registration.notFound sG] ∧
      ∀ conn, mux.ServeConn dispatch conn = some sG) := by
  constructor
  · have h1 := iteration_done d (normalize d conf) Build.init "alpha://:9000"
      ⟨"alpha", ":9000", none, ""⟩ sA (some ["A"]) hpA (hfA _) (fun h => by cases h)
    have h2 := iteration_done d (normalize d conf)
      (iteration d (normalize d conf) Build.init "alpha://:9000").1 "beta://:9000"
      ⟨"beta", ":9000", none, ""⟩ sB none hpB (hfB _)
      (fun _ => by rw [h1]; exact hnB)
    have hrun : NewAnyProxyRun d ["alpha://:9000", "beta://:9000"] conf =
        iteration d (normalize d conf)
          (iteration d (normalize d conf) Build.init "alpha://:9000").1 "beta://:9000" := by
      have e1 : iteration d (normalize d conf) Build.init "alpha://:9000" =
          ((iteration d (normalize d conf) Build.init "alpha://:9000").1, none) := by
        rw [h1]
      have e2 : iteration d (normalize d conf)
          (iteration d (normalize d conf) Build.init "alpha://:9000").1 "beta://:9000" =
          ((iteration d (normalize d conf)
            (iteration d (normalize d conf) Build.init "alpha://:9000").1 "beta://:9000").1,
            none) := by
        rw [h2]
      rw [NewAnyProxyRun, loop, e1]
      simp only [loop]
      rw [e2]
    refine ⟨{ proxies := (iteration d (normalize d conf)
          (iteration d (normalize d conf) Build.init "alpha://:9000").1 "beta://:9000").1.proxies
              conf := normalize d conf },
      registered (registered (resolveHost (normalize d conf) GoMap.empty ":9000") sA
        (some ["A"])) sB none, ?_, ?_, ?_, rfl, ?_⟩
    · rw [NewAnyProxy, hrun, h2]
    · rw [h2, h1]; rfl
    · rw [h2, h1]; rfl
    · intro conn
      exact dispatch_alpha_beta dispatch hD _ sA sB rfl conn
  · have h1 := iteration_done d (normalize d conf) Build.init "gamma://:9001"
      ⟨"gamma", ":9001", none, ""⟩ sG none hpG (hfG _)
      (fun _ => hnG)
    have hrun : NewAnyProxyRun d ["gamma://:9001"] conf =
        iteration d (normalize d conf) Build.init "gamma://:9001" := by
      have e1 : iteration d (normalize d conf) Build.init "gamma://:9001" =
          ((iteration d (normalize d conf) Build.init "gamma://:9001").1, none) := by
        rw [h1]
      rw [NewAnyProxyRun, loop, e1]
      simp only [loop]
    refine ⟨{ proxies := (iteration d (normalize d conf) Build.init "gamma://:9001").1.proxies
              conf := normalize d conf },
      registered (resolveHost (normalize d conf) GoMap.empty ":9001") sG none,
      ?_, ?_, ?_, rfl, ?_⟩
    · rw [NewAnyProxy, hrun, h1]
    · rw [h1]; rfl
    · rw [h1]; rfl
    · intro conn
      exact dispatch_gamma dispatch hD _ sG rfl conn

theorem alpha_beta_gamma_dispatch_witness :
    PrefixFirst demoDispatch ∧
    demo.NotFound ⟨[Registration.handlePrefix demoAlpha ["A"]]⟩ (demoPlain "beta") = none ∧
    demo.NotFound ⟨[]⟩ (demoPlain "gamma") = none ∧
    demo.Parse "alpha://:9000" = .ok ⟨"alpha", ":9000", none, ""⟩ ∧
    demo.Parse "beta://:9000" = .ok ⟨"beta", ":9000", none, ""⟩ ∧
    demo.Parse "gamma://:9001" = .ok ⟨"gamma", ":9001", none, ""⟩ ∧
    (∀ c, demo.NewServeConn "alpha" ":9000" c = .ok (demoAlpha, some ["A"])) ∧
    (∀ c, demo.NewServeConn "beta" ":9000" c = .ok (demoPlain "beta", none)) ∧
    (∀ c, demo.NewServeConn "gamma" ":9001" c = .ok (demoPlain "gamma", none)) ∧
    demoHost9000.ServeConn demoDispatch ⟨"ABC"⟩ = some demoAlpha ∧
    demoHost9000.ServeConn demoDispatch ⟨"GET /"⟩ = some (demoPlain "beta") ∧
    demoHost9000.ServeConn demoDispatch ⟨""⟩ = some (demoPlain "beta") ∧
    ((∃ p mux, NewAnyProxy demo ["alpha://:9000", "beta://:9000"] none = (some p, none) ∧
        p.Hosts = [":9000"] ∧ p.Match ":9000" = some mux ∧
        mux.cmux.calls =
          [Registration.handlePrefix demoAlpha ["A"], Registration.notFound (demoPlain "beta")] ∧
        ∀ conn, (hasPrefix "A" conn = true → mux.ServeConn demoDispatch conn = some demoAlpha) ∧
          (hasPrefix "A" conn = false →
            mux.ServeConn demoDispatch conn = some (demoPlain "beta"))) ∧
      (∃ p mux, NewAnyProxy demo ["gamma://:9001"] none = (some p, none) ∧
        p.Hosts = [":9001"] ∧ p.Match ":9001" = some mux ∧
        mux.cmux.calls = [Registration.notFound (demoPlain "gamma")] ∧
        ∀ conn, mux.ServeConn demoDispatch conn = some (demoPlain "gamma"))) :=
  ⟨prefixFirst_demoDispatch, rfl, rfl, rfl, rfl, rfl, fun _ => rfl, fun _ => rfl,
    fun _ => rfl, by decide, by decide, by decide,
    alpha_beta_gamma_dispatch demo demoDispatch prefixFirst_demoDispatch none
      demoAlpha (demoPlain "beta") (demoPlain "gamma") rfl rfl rfl (fun _ => rfl) (fun _ => rfl)
      (fun _ => rfl) rfl rfl⟩

end Anyproxy
